import Mathlib

/-!
Verification development for the Skull rules engine
(`src/env/actions.py`, `src/env/player.py`, `src/env/board.py`).

The Python code is shallowly embedded: every class becomes a structure,
every method a function; in-place mutation becomes explicit state passing,
and a method that can raise becomes a function into `Except PyErr _`.
Python raises the exception *before* any of the remaining mutations run,
so returning `.error e` faithfully models "exception raised at that point".
The single random draw (`random.randrange`) is modelled by an explicit
`rnd : Nat` argument (reduced mod the hand size), so all statements can
quantify over the random source.
-/

deriving instance DecidableEq for Except

namespace Skull

/-- Modelled from the spec: `card.py` is not under `src/`.  The spec (§2, §3)
says `Card` is a three-value tag {Flower, Skull, Hidden}; the notation codec
in `actions.py` forces the Flower/Skull tokens to be `"F"`/`"S"` (its
`parse_notation` maps `"F"`/`"S"` to `Card.FLOWER`/`Card.SKULL`, and the
seat-level `card: str` type annotations show the members behave as strings).
`Hidden` is only a redaction sentinel, distinct from both real values; its
concrete string is not observable anywhere in the embedded code, so any
value other than `"F"`/`"S"` is faithful. -/
abbrev Card := String

/-- Modelled from the spec: the Flower card value/token. -/
def Card.FLOWER : Card := "F"

/-- Modelled from the spec: the Skull card value/token. -/
def Card.SKULL : Card := "S"

/-- Modelled from the spec: the redaction sentinel (§3: never a real holding). -/
def Card.hidden : Card := "Hidden"

/-- The action sum type of `actions.py` (one constructor per dataclass). -/
inductive Action where
  | PlayCardAction (card : Card)
  | LoseCardAction (card : Card)
  | RevealCardAction (player_name : String)
  | BetAction (amount : Int)
  | PassAction
  deriving DecidableEq, Repr

open Action

/-- Structural-recursion helper for decimal rendering (`fuel ≥ n` suffices;
kept structural so that concrete pushes evaluate inside kernel proofs). -/
def natDecimalAux : Nat → Nat → List Char
  | 0, _ => []
  | _, 0 => []
  | fuel + 1, n + 1 =>
    natDecimalAux fuel ((n + 1) / 10) ++ [Char.ofNat ((n + 1) % 10 + 48)]

/-- Python decimal rendering of a natural number (the digits of `str(n)`,
most significant first). -/
def natDecimalChars (n : Nat) : List Char := natDecimalAux n n

/-- Python `str` of a nonnegative integer. -/
def pyStrNat (n : Nat) : String :=
  if n = 0 then "0" else ⟨natDecimalChars n⟩

/-- Python `str` of an `int` (decimal, `-` sign for negatives), as used by the
f-string `f"B{self.amount}"` in `BetAction.notation`. -/
def pyStrInt : Int → String
  | .ofNat m => pyStrNat m
  | .negSucc m => "-" ++ pyStrNat (m + 1)

/-- The `notation` property of each `Action` dataclass in `actions.py`:
`PlayCardAction` renders the bare card token, `LoseCardAction` prefixes `L`,
`RevealCardAction` prefixes `R`, `BetAction` prefixes `B` to the decimal
amount, and `PassAction` has the constant field `notation = "P"`. -/
def notationOf : Action → String
  | PlayCardAction card => card
  | LoseCardAction card => "L" ++ card
  | RevealCardAction player_name => "R" ++ player_name
  | BetAction amount => "B" ++ pyStrInt amount
  | PassAction => "P"

/-- The exception classes raised by the embedded code.  `ValueError`,
`AttributeError`, `IndexError` and `StopIteration` are Python built-ins
raised by `int(...)`, a missing attribute, `list[0]` on an empty list and
`next()` on a spent generator respectively. -/
inductive PyErr where
  | MoveIsNotLegal
  | GameIsOver
  | GameHasNotStarted
  | NotationDoesNotExistException
  | NoCardsException
  | NoSkullException
  | NoFlowerException
  | CannotLoadHiddenStateException
  | ValueError
  | AttributeError
  | IndexError
  | StopIteration
  deriving DecidableEq, Repr

/-- One step of Python `int(s)` digit accumulation. -/
def digitsVal (l : List Char) : Nat :=
  l.foldl (fun acc c => acc * 10 + (c.toNat - 48)) 0

/-- Python `int(s)` on a (non-empty) pure digit string. -/
def pyIntCore (l : List Char) : Option Nat :=
  if l ≠ [] ∧ l.all (·.isDigit) then some (digitsVal l) else none

/-- Python `int(s)` for the token shapes reachable from the codec: an optional
sign followed by decimal digits.  (Surface forms Python also tolerates, such
as surrounding whitespace or `_` separators, are not modelled; no embedded
call site produces them.)  `none` models the `ValueError` raise. -/
def pyInt? (s : String) : Option Int :=
  match s.data with
  | [] => none
  | c :: rest =>
    if c = '-' then (pyIntCore rest).map (fun n => -(n : Int))
    else if c = '+' then (pyIntCore rest).map (fun n => (n : Int))
    else (pyIntCore (c :: rest)).map (fun n => (n : Int))

/-- `parse_notation` from `actions.py`: dispatch on `str.startswith` prefixes
in source order (`P`, `B`, `R`, `L`), then exact matches `"S"`/`"F"`,
else raise `NotationDoesNotExistException`.  A non-numeric bet payload makes
`int(...)` raise `ValueError`. -/
def parse_notation (nota : String) : Except PyErr Action :=
  match nota.data with
  | [] => .error .NotationDoesNotExistException
  | c :: rest =>
    if c = 'P' then .ok PassAction
    else if c = 'B' then
      match pyInt? ⟨rest⟩ with
      | some n => .ok (BetAction n)
      | none => .error .ValueError
    else if c = 'R' then .ok (RevealCardAction ⟨rest⟩)
    else if c = 'L' then .ok (LoseCardAction ⟨rest⟩)
    else if c :: rest = ['S'] then .ok (PlayCardAction Card.SKULL)
    else if c :: rest = ['F'] then .ok (PlayCardAction Card.FLOWER)
    else .error .NotationDoesNotExistException

/-- Python `repr` of a plain string (quotes around the text; escape sequences
inside the text are not modelled, no embedded value needs them). -/
def pyReprStr (s : String) : String := "\x27" ++ s ++ "\x27"

/-- Modelled from the spec: the `repr` of a `Card` value.  `card.py` is not
under `src/`, so the exact member `repr` is unknown; what every candidate
(str-enum member or plain string constant) shares is that it is not the bare
one-character token itself.  The theorems about `str(action)` only use the
dataclass layout `ClassName(field=...)`, never the inner text. -/
def cardRepr (c : Card) : String := "<Card: " ++ pyReprStr c ++ ">"

/-- Python `str(action)`: the `@dataclass` default `__repr__`,
`ClassName(field=repr(value))`.  This (not `.notation`) is what
`Board.push` appends to `action_record` (`board.py` line 145). -/
def strAction : Action → String
  | PlayCardAction card => "PlayCardAction(card=" ++ cardRepr card ++ ")"
  | LoseCardAction card => "LoseCardAction(card=" ++ cardRepr card ++ ")"
  | RevealCardAction player_name =>
      "RevealCardAction(player_name=" ++ pyReprStr player_name ++ ")"
  | BetAction amount => "BetAction(amount=" ++ pyStrInt amount ++ ")"
  | PassAction => "PassAction(notation=" ++ pyReprStr "P" ++ ")"

/-- The `PlayerState` dataclass of `player.py` (the snapshot of one seat). -/
structure PlayerState where
  name : String
  cards_hand : List Card
  cards_stack : List Card
  points : Nat
  alive : Bool
  is_playing : Bool
  cards_revealed : List Card
  deriving DecidableEq, Repr

/-- `PlayerState.is_hidden`: whether any redaction sentinel occurs in the
snapshot's hand or stack. -/
def PlayerState.is_hidden (s : PlayerState) : Bool :=
  (s.cards_hand ++ s.cards_stack).contains Card.hidden

/-- The `Player` class of `player.py` (a seat).  Python `points` is an `int`
only ever incremented from `0`, embedded as `Nat`. -/
structure Player where
  name : String
  cards_hand : List Card
  cards_stack : List Card
  points : Nat
  alive : Bool
  is_playing : Bool
  cards_revealed : List Card
  deriving DecidableEq, Repr

instance : Inhabited Player :=
  ⟨{ name := "", cards_hand := [], cards_stack := [], points := 0,
     alive := false, is_playing := false, cards_revealed := [] }⟩

/-- `Player.__init__`: fresh seat with three flowers and one skull in hand. -/
def Player.init (name : String) : Player :=
  { name := name
    cards_hand := [Card.FLOWER, Card.FLOWER, Card.FLOWER, Card.SKULL]
    cards_stack := []
    points := 0
    alive := true
    is_playing := true
    cards_revealed := [] }

/-- `Player.can_play_skull`. -/
def Player.can_play_skull (p : Player) : Bool := p.cards_hand.contains Card.SKULL

/-- `Player.can_play_flower`. -/
def Player.can_play_flower (p : Player) : Bool := p.cards_hand.contains Card.FLOWER

/-- `Player.collect_cards`: move stack and revealed pile back into the hand;
a seat whose hand stays empty is eliminated. -/
def Player.collect_cards (p : Player) : Player :=
  let hand := p.cards_hand ++ p.cards_stack ++ p.cards_revealed
  { p with
    cards_hand := hand
    cards_stack := []
    cards_revealed := []
    alive := if hand.length = 0 then false else p.alive }

/-- `Player.remove_card`: collect, then pop a random hand index (the injected
draw `rnd` is reduced modulo the hand size, matching `randrange(len(hand))`);
on an empty hand set `alive = False` and raise `NoCardsException`.
(The Python object keeps that `alive=False` mutation even though the
exception propagates; the `.error` result marks the raise itself.) -/
def Player.remove_card (p : Player) (rnd : Nat) : Except PyErr Player :=
  let p := p.collect_cards
  if p.cards_hand.length > 0 then
    .ok { p with cards_hand := p.cards_hand.eraseIdx (rnd % p.cards_hand.length) }
  else
    .error .NoCardsException

/-- `Player.play_flower`: move one flower from hand to the top of the stack
(`list.remove` deletes the first occurrence); raise if absent. -/
def Player.play_flower (p : Player) : Except PyErr Player :=
  if p.can_play_flower then
    .ok { p with
          cards_hand := p.cards_hand.erase Card.FLOWER
          cards_stack := p.cards_stack ++ [Card.FLOWER] }
  else
    .error .NoFlowerException

/-- `Player.play_skull`. -/
def Player.play_skull (p : Player) : Except PyErr Player :=
  if p.can_play_skull then
    .ok { p with
          cards_hand := p.cards_hand.erase Card.SKULL
          cards_stack := p.cards_stack ++ [Card.SKULL] }
  else
    .error .NoSkullException

/-- One step of the `Player.reveal_stack` generator: append the most recently
stacked card to the revealed pile and drop it from the stack; `none` when the
stack is empty (a bare `next(...)` then raises `StopIteration`). -/
def Player.revealNext? (p : Player) : Option (Card × Player) :=
  match p.cards_stack.getLast? with
  | some c =>
      some (c, { p with
                 cards_revealed := p.cards_revealed ++ [c]
                 cards_stack := p.cards_stack.dropLast })
  | none => none

/-- `Player.get_state`: snapshot, element-wise redacting hand and stack when
`hidden`; the revealed pile, points and flags are always shown. -/
def Player.get_state (p : Player) (hidden : Bool) : PlayerState :=
  { name := p.name
    points := p.points
    cards_hand := if hidden then p.cards_hand.map (fun _ => Card.hidden) else p.cards_hand
    cards_stack := if hidden then p.cards_stack.map (fun _ => Card.hidden) else p.cards_stack
    cards_revealed := p.cards_revealed
    alive := p.alive
    is_playing := p.is_playing }

/-- `Player.from_state`: refuse redacted snapshots, else rebuild the seat
field by field. -/
def Player.from_state (s : PlayerState) : Except PyErr Player :=
  if s.is_hidden then .error .CannotLoadHiddenStateException
  else
    .ok { name := s.name
          cards_hand := s.cards_hand
          cards_stack := s.cards_stack
          points := s.points
          alive := s.alive
          is_playing := s.is_playing
          cards_revealed := s.cards_revealed }

/-- The `BoardState` dataclass of `board.py`.  `bet_holder` and `next_player`
are stored by seat name, as in the source. -/
structure BoardState where
  players : List PlayerState
  bet_holder : Option String
  highest_bet : Int
  next_player : String
  deriving DecidableEq, Repr

/-- The `Board` class.  Python keeps *object references* for `bet_holder` and
`next_player`; since both always point at members of `self.players` and
`Player` defines no `__eq__` (so `==`/`!=`/`list.index` compare identity),
a reference is embedded as the index of that object in the list. -/
structure Board where
  players : List Player
  bet_holder : Option Nat
  highest_bet : Int
  next_player : Nat
  legal_moves : List Action
  action_record : List String
  state_record : List BoardState
  deriving DecidableEq, Repr

/-- The seat object currently referenced by `self.next_player` (total
accessor; every embedded call site keeps the index in range). -/
def Board.nextP (b : Board) : Player := b.players.getD b.next_player default

/-- Replace the player object at index `i` (in-place mutation of the
referenced object). -/
def Board.setP (b : Board) (i : Nat) (p : Player) : Board :=
  { b with players := b.players.set i p }

/-- `Board._has_anyone_won`. -/
def Board.has_anyone_won (b : Board) : Bool :=
  b.players.any (fun p => p.points > 1)

/-- `Board._is_more_than_one_player_alive`. -/
def Board.more_than_one_alive (b : Board) : Bool :=
  (b.players.filter (·.alive)).length > 1

/-- `Board._is_round_over`. -/
def Board.is_round_over (b : Board) : Bool :=
  ¬ b.players.any (·.is_playing)

/-- `Board._nbr_cards_on_board`: total cards committed across all stacks. -/
def Board.nbr_cards_on_board (b : Board) : Nat :=
  (b.players.map (fun p => p.cards_stack.length)).sum

/-- `Board._cards_shown`: total publicly revealed cards. -/
def Board.cards_shown (b : Board) : Nat :=
  (b.players.map (fun p => p.cards_revealed.length)).sum

/-- `Board.winner`: if at most one seat is alive the sole survivor wins
(`[x for x in players if x.alive][0]` raises `IndexError` when nobody is
alive); otherwise the first seat in current order with more than one point;
otherwise no winner. -/
def Board.winner (b : Board) : Except PyErr (Option Player) :=
  if ¬ b.more_than_one_alive then
    match (b.players.filter (·.alive)).head? with
    | some w => .ok (some w)
    | none => .error .IndexError
  else if b.has_anyone_won then
    match (b.players.filter (fun p => p.points > 1)).head? with
    | some w => .ok (some w)
    | none => .error .IndexError
  else
    .ok none

/-- `Board._start_round`: collect every seat's cards, revive the living,
rotate the seat list so the bet holder leads, reset the bet.  (The `for`
loop iterates over the original list object, so every seat is collected
exactly once even though `self.players` is reassigned mid-loop when the
iteration reaches the bet holder.) -/
def Board.start_round (b : Board) : Board :=
  let players := b.players.map (fun p =>
    let p := p.collect_cards
    if p.alive then { p with is_playing := true } else p)
  let players := match b.bet_holder with
    | some j => players.drop j ++ players.take j
    | none => players
  { b with
    players := players
    next_player := 0
    bet_holder := none
    highest_bet := 0 }

/-- Python `range(lo, hi)` over `int`s. -/
def intRange (lo hi : Int) : List Int :=
  (List.range (hi - lo).toNat).map (fun (k : Nat) => lo + (k : Int))

/-- `Board._get_legal_moves_cards_and_bet_stage` (pure): card plays when no
bet exists, `Pass` otherwise, plus every raise from `highest_bet + 1` up to
the number of cards on the board when every seat still playing has committed
at least one card. -/
def Board.betStageMoves (b : Board) : List Action :=
  let player := b.nextP
  let legal_actions :=
    if b.bet_holder = none then
      (if player.can_play_flower then [PlayCardAction Card.FLOWER] else []) ++
      (if player.can_play_skull then [PlayCardAction Card.SKULL] else [])
    else
      [PassAction]
  let legal_actions :=
    if ¬ b.players.any (fun p => p.cards_stack.length = 0 ∧ p.is_playing) then
      legal_actions ++
        (intRange (b.highest_bet + 1) ((b.nbr_cards_on_board : Int) + 1)).map BetAction
    else
      legal_actions
  legal_actions

/-- Structural (fuel-indexed) form of the reveal loop; the fuel is an upper
bound on the stack length, each generator step strictly shrinks the stack,
and with the fuel spent the stack is already empty, so the fuel never cuts
the loop short (`revealWalkAux_congr` below). -/
def revealWalkAux (hb : Int) : Nat → Player → Option (List Action) × Player
  | 0, p => (none, p)
  | fuel + 1, p =>
    match p.revealNext? with
    | none => (none, p)
    | some (card, p') =>
      if card = Card.SKULL then
        let p'' := p'.collect_cards
        (some (if p''.can_play_flower then
                 [LoseCardAction Card.FLOWER, LoseCardAction Card.SKULL]
               else
                 [LoseCardAction Card.SKULL]), p'')
      else if (p'.cards_revealed.length : Int) = hb then
        (some [PassAction], { p' with points := p'.points + 1 })
      else
        revealWalkAux hb fuel p'

/-- The `for card in player.reveal_stack()` loop of
`Board._get_legal_moves_reveal_cards_stage`: step the seat's own reveal
generator until a skull forfeits (collect, offer `LoseCard` choices), the
seat's own revealed count reaches the bet (score a point, offer `Pass`), or
the stack is exhausted (`none`: fall through to opponent reveals). -/
def Board.revealWalk (hb : Int) (p : Player) : Option (List Action) × Player :=
  revealWalkAux hb p.cards_stack.length p

/-- `Board._get_legal_moves_reveal_cards_stage` with its state effects: walk
the bettor's own stack (mutating the seat), then, if the walk falls through,
offer a reveal of every *other* seat with a non-empty stack. -/
def Board.revealStage (b : Board) : List Action × Board :=
  match Board.revealWalk b.highest_bet b.nextP with
  | (some moves, p') => (moves, b.setP b.next_player p')
  | (none, p') =>
    ((((b.setP b.next_player p').players.enum).filter
        (fun pi => pi.1 ≠ (b.setP b.next_player p').next_player ∧
          pi.2.cards_stack.length > 0)).map
        (fun pi => RevealCardAction pi.2.name), b.setP b.next_player p')

/-- `Board._get_legal_moves`: a dead or no-longer-playing seat may only pass;
a seat other than the bet holder is in the commit/bet stage; the bet holder
is in the reveal stage (whose computation mutates the board). -/
def Board.get_legal_moves (b : Board) : List Action × Board :=
  if ¬ b.nextP.alive ∨ ¬ b.nextP.is_playing then ([PassAction], b)
  else if b.bet_holder ≠ some b.next_player then (b.betStageMoves, b)
  else b.revealStage

/-- The body of the `for p in self.players` loop of the `RevealCardAction`
branch of `Board._process_action`, at seat index `i`: when the name matches,
step that seat's reveal generator once (a bare `next` on an empty stack
raises `StopIteration`); a skull stops the actor and forces a random
discard, otherwise reaching the bet total stops the actor and scores a
point. -/
def Board.revealActAt (actor : Nat) (target : String) (rnd : Nat) (b : Board)
    (i : Nat) : Except PyErr Board :=
  let p := b.players.getD i default
  if p.name = target then
    match p.revealNext? with
    | none => .error .StopIteration
    | some (card, p') =>
      let b := b.setP i p'
      if card = Card.SKULL then
        let b := b.setP actor { b.players.getD actor default with is_playing := false }
        match (b.players.getD actor default).remove_card rnd with
        | .ok pa => .ok (b.setP actor pa)
        | .error e => .error e
      else if (b.cards_shown : Int) = b.highest_bet then
        .ok (b.setP actor
          { b.players.getD actor default with
            is_playing := false
            points := (b.players.getD actor default).points + 1 })
      else
        .ok b
  else
    .ok b

/-- `Board._process_action`: dispatch on the action class.  `list.remove` in
the `LoseCardAction` branch raises `ValueError` when the card is absent; the
`RevealCardAction` branch iterates the whole seat list, processing every
name match. -/
def Board.process_action (b : Board) (actor : Nat) (a : Action) (rnd : Nat) :
    Except PyErr Board :=
  match a with
  | PlayCardAction card =>
    if card = Card.FLOWER then
      match (b.players.getD actor default).play_flower with
      | .ok p => .ok (b.setP actor p)
      | .error e => .error e
    else if card = Card.SKULL then
      match (b.players.getD actor default).play_skull with
      | .ok p => .ok (b.setP actor p)
      | .error e => .error e
    else
      .error .MoveIsNotLegal
  | BetAction amount =>
    .ok { b with bet_holder := some actor, highest_bet := amount }
  | RevealCardAction player_name =>
    (List.range b.players.length).foldlM (Board.revealActAt actor player_name rnd) b
  | LoseCardAction card =>
    let p := (b.players.getD actor default).collect_cards
    if card ∈ p.cards_hand then
      let hand := p.cards_hand.erase card
      .ok (b.setP actor
        { p with
          cards_hand := hand
          alive := if hand.length = 0 then false else p.alive
          is_playing := false })
    else
      .error .ValueError
  | PassAction =>
    .ok (b.setP actor { b.players.getD actor default with is_playing := false })

/-- `Board.get_state`: the full-board snapshot, redacting every seat whose
name is not in `show_hand`; references serialize to names. -/
def Board.get_state (b : Board) (show_hand : List String) : BoardState :=
  { next_player := b.nextP.name
    players := b.players.map (fun p => p.get_state (¬ show_hand.contains p.name))
    highest_bet := b.highest_bet
    bet_holder := b.bet_holder.map (fun j => (b.players.getD j default).name) }

/-- `Board.push` on an `Action` argument: refuse when a winner already
exists, refuse actions outside the cached legal-move list, record the
pre-action snapshot (full visibility) and `str(action)`, process the
action, start a new round or advance the turn, and recompute (with side
effects) the legal moves for the new seat to move. -/
def Board.push (b : Board) (a : Action) (rnd : Nat) : Except PyErr Board :=
  match b.winner with
  | .error e => .error e
  | .ok w =>
    if w.isSome then
      .error .GameIsOver
    else if a ∉ b.legal_moves then
      .error .MoveIsNotLegal
    else
      let snap := b.get_state (b.players.map (·.name))
      let b1 := { b with
                  state_record := b.state_record ++ [snap]
                  action_record := b.action_record ++ [strAction a] }
      match b1.process_action b1.next_player a rnd with
      | .error e => .error e
      | .ok b2 =>
        let b3 :=
          if b2.is_round_over then b2.start_round
          else { b2 with next_player := (b2.next_player + 1) % b2.players.length }
        let mvb := b3.get_legal_moves
        .ok { mvb.2 with legal_moves := mvb.1 }

/-- `Board.push` on a notation string: after the winner check, the code calls
`Action.from_notation(action)` — but neither `actions.py` nor any other
module defines a `from_notation` attribute on `Action` (the decoder is the
module-level function `parse_notation`), so the attribute lookup raises
`AttributeError`. -/
def Board.pushStr (b : Board) (s : String) : Except PyErr Board := do
  let w ← b.winner
  if w.isSome then
    .error .GameIsOver
  else
    .error .AttributeError

/-- `Board.load_state`: rebuild every seat from the snapshot (refusing
redacted ones), resolve `bet_holder` and `next_player` by first name match
(`list.index` raises `ValueError` when absent), then recompute the legal
moves — including the reveal-stage side effects. -/
def Board.load_state (b : Board) (s : BoardState) : Except PyErr Board := do
  let players ← s.players.mapM Player.from_state
  let names := players.map (·.name)
  let b := { b with players := players, highest_bet := s.highest_bet }
  let b ← match s.bet_holder with
    | none => pure { b with bet_holder := (none : Option Nat) }
    | some nm =>
      match names.indexOf? nm with
      | some j => pure { b with bet_holder := some j }
      | none => .error .ValueError
  let b ← match names.indexOf? s.next_player with
    | some j => pure { b with next_player := j }
    | none => .error .ValueError
  let (mv, b) := b.get_legal_moves
  .ok { b with legal_moves := mv }

/-- `Board.pop`: raise `GameHasNotStarted` when the snapshot log is empty,
otherwise load the most recent snapshot and truncate both logs. -/
def Board.pop (b : Board) : Except PyErr Board := do
  match b.state_record.getLast? with
  | none => .error .GameHasNotStarted
  | some last =>
    let b' ← b.load_state last
    .ok { b' with
          state_record := b'.state_record.dropLast
          action_record := b'.action_record.dropLast }

/-- `Board.__init__`: fresh seats from the name list; `self.players[0]`
raises `IndexError` on an empty list.  The initial legal-move computation
runs in the no-bet commit stage, which is pure. -/
def Board.init (player_names : List String) : Except PyErr Board :=
  let players := player_names.map Player.init
  if players.isEmpty then .error .IndexError
  else
    let b : Board :=
      { players := players
        bet_holder := none
        highest_bet := 0
        next_player := 0
        legal_moves := []
        action_record := []
        state_record := [] }
    let (mv, b) := b.get_legal_moves
    .ok { b with legal_moves := mv }

/-- `Board.from_state`: the classmethod first evaluates
`Board(player_names=[])`, whose `__init__` indexes `self.players[0]` on an
empty list — so it raises `IndexError` before `load_state` can run. -/
def Board.from_state (s : BoardState) : Except PyErr Board := do
  let new_board ← Board.init []
  let b ← new_board.load_state s
  .ok b

/-- The boards reachable through the public lifecycle: construction from an
ordered list of seat names (the spec, §3, requires names to be unique within
a game) followed by any sequence of successful pushes, for every value of
the injected random source. -/
inductive Reachable : Board → Prop where
  | init (names : List String) (hnd : names.Nodup) (b : Board)
      (h : Board.init names = .ok b) : Reachable b
  | push (b b' : Board) (a : Action) (rnd : Nat) (hb : Reachable b)
      (h : b.push a rnd = .ok b') : Reachable b'

/-! ### Definitions for the reachability invariant (C3) -/

/-- The seat object at index `i`. -/
def pAt (b : Board) (i : Nat) : Player := b.players.getD i default

/-- Every card a seat holds anywhere is a real card (flower or skull). -/
def cardsOK (p : Player) : Prop :=
  (∀ c ∈ p.cards_hand, c = Card.FLOWER ∨ c = Card.SKULL) ∧
  (∀ c ∈ p.cards_stack, c = Card.FLOWER ∨ c = Card.SKULL) ∧
  (∀ c ∈ p.cards_revealed, c = Card.FLOWER ∨ c = Card.SKULL)

/-- A dead seat has no cards anywhere (it was eliminated by a collect that
found nothing, or by losing its last card after a collect). -/
def deadEmpty (p : Player) : Prop :=
  p.alive = false → p.cards_hand = [] ∧ p.cards_stack = [] ∧ p.cards_revealed = []

/-- Cyclic distance from the seat-to-move: how many turns until seat `i`
acts (`0` for the seat to move itself). -/
def relIdx (n next i : Nat) : Nat :=
  if next ≤ i then i - next else i + n - next

/-- While no bet exists: a still-playing seat with an empty hand (it has
committed every card) acts only after every still-playing seat with an empty
stack (which must still commit) has acted. -/
def wInv (b : Board) : Prop :=
  ∀ j < b.players.length, (pAt b j).is_playing = true → (pAt b j).cards_hand = [] →
    ∀ i < b.players.length, (pAt b i).is_playing = true → (pAt b i).cards_stack = [] →
      relIdx b.players.length b.next_player i < relIdx b.players.length b.next_player j

/-- With a bet holder: every other seat still playing acts strictly before
play returns to the holder (so when the holder is to move, everyone else has
passed or raised away). -/
def hInv3 (b : Board) (h : Nat) : Prop :=
  ∀ i < b.players.length, i ≠ h → (pAt b i).is_playing = true →
    relIdx b.players.length b.next_player i < relIdx b.players.length b.next_player h

/-- The reveal-phase fall-through move list (the opponent-reveal options),
exactly as `revealStage` computes it. -/
def revealListMoves (b : Board) : List Action :=
  ((b.players.enum).filter
    (fun pi => pi.1 ≠ b.next_player ∧ pi.2.cards_stack.length > 0)).map
    (fun pi => RevealCardAction pi.2.name)

/-- Bet placed, reveal not yet begun: nothing revealed anywhere, the holder
still has its committed stack, and the bet is covered by the table. -/
def phasePre (b : Board) (h : Nat) : Prop :=
  b.cards_shown = 0 ∧ (pAt b h).cards_stack ≠ [] ∧
  (b.highest_bet : Int) ≤ (b.nbr_cards_on_board : Int) ∧ b.next_player ≠ h

/-- Mid-reveal: the holder's own stack is spent (walked), it has revealed at
least one card, the running total is still short of the bet, and the bet is
covered by stacks plus revealed cards; when play is at the holder the cached
moves are the (non-empty) opponent-reveal options. -/
def phaseMid (b : Board) (h : Nat) : Prop :=
  (pAt b h).cards_stack = [] ∧ (pAt b h).cards_revealed ≠ [] ∧
  ((b.cards_shown : Int) < b.highest_bet) ∧
  (b.highest_bet ≤ ((b.nbr_cards_on_board + b.cards_shown : Nat) : Int)) ∧
  (b.next_player = h → b.legal_moves = revealListMoves b ∧ b.legal_moves ≠ [])

/-- Auto-skull just hit during the walk: the holder (to move) has collected
its spread and must discard; the skull is in its hand. -/
def phaseSkull (b : Board) (h : Nat) : Prop :=
  b.next_player = h ∧
  b.legal_moves = (if (pAt b h).can_play_flower then
      [LoseCardAction Card.FLOWER, LoseCardAction Card.SKULL]
    else
      [LoseCardAction Card.SKULL]) ∧
  (pAt b h).cards_stack = [] ∧ (pAt b h).cards_revealed = [] ∧
  (pAt b h).can_play_skull = true

/-- The bet was delivered during the walk: the holder (to move) only
acknowledges with `Pass`. -/
def phasePoint (b : Board) (h : Nat) : Prop :=
  b.next_player = h ∧ b.legal_moves = [PassAction]

/-- The cached legal moves agree with the (pure) stage computation whenever
the seat to move is not the bet holder in the reveal phase. -/
def legalCache (b : Board) : Prop :=
  (¬ (b.nextP.alive = true ∧ b.nextP.is_playing = true) → b.legal_moves = [PassAction]) ∧
  (b.nextP.alive = true → b.nextP.is_playing = true → b.bet_holder ≠ some b.next_player →
    b.legal_moves = b.betStageMoves)

/-- The state-independent core of the invariant. -/
def coreINV (b : Board) : Prop :=
  0 < b.players.length ∧
  b.next_player < b.players.length ∧
  (b.players.map (·.name)).Nodup ∧
  (∀ p ∈ b.players, cardsOK p) ∧
  (∀ p ∈ b.players, p.is_playing = true → p.alive = true) ∧
  (∀ p ∈ b.players, deadEmpty p)

/-- The full reachability invariant. -/
def INV (b : Board) : Prop :=
  coreINV b ∧
  legalCache b ∧
  b.legal_moves ≠ [] ∧
  (match b.bet_holder with
   | none => b.highest_bet = 0 ∧ b.cards_shown = 0 ∧ wInv b
   | some h =>
     h < b.players.length ∧ (pAt b h).alive = true ∧ (pAt b h).is_playing = true ∧
     1 ≤ b.highest_bet ∧ hInv3 b h ∧
     (phasePre b h ∨ phaseMid b h ∨ phaseSkull b h ∨ phasePoint b h))

/-- The phase facts available for the post-action, post-advance board, before
the closing legal-move recomputation runs (`phasePre` may momentarily have
`next = holder`: that is exactly the walk entry). -/
def postPhase (b : Board) : Prop :=
  match b.bet_holder with
  | none => b.highest_bet = 0 ∧ b.cards_shown = 0 ∧ wInv b
  | some h =>
    h < b.players.length ∧ (pAt b h).alive = true ∧ (pAt b h).is_playing = true ∧
    1 ≤ b.highest_bet ∧ hInv3 b h ∧
    ((b.cards_shown = 0 ∧ (pAt b h).cards_stack ≠ [] ∧
        (b.highest_bet : Int) ≤ (b.nbr_cards_on_board : Int)) ∨
     ((pAt b h).cards_stack = [] ∧ (pAt b h).cards_revealed ≠ [] ∧
        ((b.cards_shown : Int) < b.highest_bet) ∧
        (b.highest_bet ≤ ((b.nbr_cards_on_board + b.cards_shown : Nat) : Int))))

/-- The turn hand-off at the end of `Board.push`: a finished round restarts,
otherwise play moves one seat to the left. -/
def Board.advance (b2 : Board) : Board :=
  if b2.is_round_over then b2.start_round
  else { b2 with next_player := (b2.next_player + 1) % b2.players.length }

/-- The pre-legal-moves board literal assembled by `Board.__init__`. -/
def initBoard (names : List String) : Board :=
  { players := names.map Player.init
    bet_holder := none
    highest_bet := 0
    next_player := 0
    legal_moves := []
    action_record := []
    state_record := [] }

/-- The per-seat transformation of `Board._start_round`: collect, then mark
the living as playing again. -/
def srF (p : Player) : Player :=
  if p.collect_cards.alive then { p.collect_cards with is_playing := true }
  else p.collect_cards

instance : Inhabited Board :=
  ⟨{ players := [], bet_holder := none, highest_bet := 0, next_player := 0,
     legal_moves := [], action_record := [], state_record := [] }⟩

/-- Extract the success value of an embedded computation (used only to name
concrete boards produced by evaluations that are separately proved to be
`.ok`). -/
def okD {α : Type} [Inhabited α] : Except PyErr α → α
  | .ok a => a
  | .error _ => default

/-- The fresh two-seat board `Board(["A", "B"])`. -/
def initAB : Board := okD (Board.init ["A", "B"])

/-- The board after `Board(["A","B"]).push(PlayCardAction(Card.FLOWER))`. -/
def pushedF : Board := okD (initAB.push (PlayCardAction Card.FLOWER) 0)

/-- Win detection as the claim C2 words it: if at most one seat has
`alive = true`, that seat is the winner; else if any seat has `points ≥ 2`,
the first such seat in the current seat order is the winner; else no winner
yet. -/
def winnerSpecC2 (b : Board) : Option Player :=
  if (b.players.filter (·.alive)).length ≤ 1 then
    (b.players.filter (·.alive)).head?
  else if b.players.any (fun p => 2 ≤ p.points) then
    b.players.find? (fun p => 2 ≤ p.points)
  else
    none

/-- A reveal-stage board: seat A holds the bet (`highestBet = 1`) with one
committed flower, play has returned to A. -/
def cexC5 : Board :=
  { players :=
      [{ name := "A", cards_hand := [Card.FLOWER, Card.FLOWER, Card.SKULL],
         cards_stack := [Card.FLOWER], points := 0, alive := true,
         is_playing := true, cards_revealed := [] },
       { name := "B", cards_hand := [Card.FLOWER, Card.FLOWER, Card.SKULL],
         cards_stack := [Card.FLOWER], points := 0, alive := true,
         is_playing := false, cards_revealed := [] }]
    bet_holder := some 0
    highest_bet := 1
    next_player := 0
    legal_moves := []
    action_record := []
    state_record := [] }

/-- The one-seat player literal used in the C9 evidence. -/
def cexP9 : Player :=
  { name := "A", cards_hand := [Card.FLOWER], cards_stack := [], points := 0,
    alive := true, is_playing := true, cards_revealed := [] }

/-! ### Concrete game traces

`pushedF, c4b2` — both seats commit a flower.  The `c4` line then bets 1 and
exercises `push`/`pop`; the `c1` line bets 2 twice over two rounds until seat
A reaches two points. -/

/-- Trace: B commits a flower as well. -/
def c4b2 : Board := okD (pushedF.push (PlayCardAction Card.FLOWER) 0)

/-- Trace (C4 line): A bets 1. -/
def c4b3 : Board := okD (c4b2.push (BetAction 1) 0)

/-- Trace (C4 line): B passes; the closing legal-move computation walks A's
own stack, awards A the point, and caches `[Pass]`. -/
def c4b4 : Board := okD (c4b3.push PassAction 0)

/-- Trace (C4 line): A pushes the acknowledging `Pass` (snapshotting `c4b4`). -/
def c4b5 : Board := okD (c4b4.push PassAction 0)

/-- Trace (C4 line): undo the `Pass`. -/
def c4b6 : Board := okD c4b5.pop

/-- Trace (C1 line): A bets 2 instead. -/
def c1b3 : Board := okD (c4b2.push (BetAction 2) 0)

/-- Trace (C1 line): B passes; the reveal walk empties A's stack short of the
bet, so A must reveal B. -/
def c1b4 : Board := okD (c1b3.push PassAction 0)

/-- Trace (C1 line): A reveals B's flower, reaching the bet: A scores a point
and the round restarts. -/
def c1b5 : Board := okD (c1b4.push (RevealCardAction "B") 0)

/-- Trace (C1 line): second round, same script, up to A's second point. -/
def c1b6 : Board := okD (c1b5.push (PlayCardAction Card.FLOWER) 0)

/-- Trace (C1 line). -/
def c1b7 : Board := okD (c1b6.push (PlayCardAction Card.FLOWER) 0)

/-- Trace (C1 line). -/
def c1b8 : Board := okD (c1b7.push (BetAction 2) 0)

/-- Trace (C1 line). -/
def c1b9 : Board := okD (c1b8.push PassAction 0)

/-- Trace (C1 line): A's second point — the game is won. -/
def c1b10 : Board := okD (c1b9.push (RevealCardAction "B") 0)

/-! ### Theorems -/

theorem revealNext?_none_iff (p : Player) :
    p.revealNext? = none ↔ p.cards_stack = [] := by
  unfold Player.revealNext?
  cases hs : p.cards_stack.getLast? with
  | none => simpa using List.getLast?_eq_none_iff.mp hs
  | some c =>
    simp only []
    constructor
    · intro h; exact absurd h (by simp)
    · intro h; rw [h] at hs; simp at hs

theorem revealNext?_length (p : Player) (c : Card) (p' : Player)
    (h : p.revealNext? = some (c, p')) :
    p'.cards_stack.length + 1 = p.cards_stack.length := by
  unfold Player.revealNext? at h
  cases hs : p.cards_stack.getLast? with
  | none => rw [hs] at h; exact absurd h (by simp)
  | some d =>
    rw [hs] at h
    simp only [Option.some.injEq, Prod.mk.injEq] at h
    obtain ⟨-, rfl⟩ := h
    simp only [List.length_dropLast]
    have hne : p.cards_stack ≠ [] := by
      intro hnil; rw [hnil] at hs; simp at hs
    have : 0 < p.cards_stack.length := List.length_pos.mpr hne
    omega

theorem revealWalkAux_succ (hb : Int) (fuel : Nat) (p : Player) :
    revealWalkAux hb (fuel + 1) p =
      (match p.revealNext? with
       | none => (none, p)
       | some (card, p') =>
         if card = Card.SKULL then
           (some (if p'.collect_cards.can_play_flower then
                    [LoseCardAction Card.FLOWER, LoseCardAction Card.SKULL]
                  else
                    [LoseCardAction Card.SKULL]), p'.collect_cards)
         else if (p'.cards_revealed.length : Int) = hb then
           (some [PassAction], { p' with points := p'.points + 1 })
         else
           revealWalkAux hb fuel p') := rfl

theorem revealWalkAux_congr (hb : Int) :
    ∀ (f : Nat) (p : Player) (g : Nat), p.cards_stack.length ≤ f →
      p.cards_stack.length ≤ g → revealWalkAux hb f p = revealWalkAux hb g p := by
  intro f
  induction f with
  | zero =>
    intro p g hf _
    have hnil : p.cards_stack = [] := by
      cases hs : p.cards_stack with
      | nil => rfl
      | cons x t => rw [hs] at hf; simp at hf
    have hn : p.revealNext? = none := (revealNext?_none_iff p).mpr hnil
    cases g with
    | zero => rfl
    | succ g => rw [revealWalkAux_succ, hn]; rfl
  | succ f ih =>
    intro p g hf hg
    cases hn : p.revealNext? with
    | none =>
      cases g with
      | zero => rw [revealWalkAux_succ, hn]; rfl
      | succ g => rw [revealWalkAux_succ, hn, revealWalkAux_succ, hn]
    | some cp =>
      obtain ⟨c, p'⟩ := cp
      have hlen := revealNext?_length p c p' hn
      cases g with
      | zero =>
        have : p.cards_stack.length = 0 := Nat.le_zero.mp hg
        omega
      | succ g =>
        rw [revealWalkAux_succ, hn, revealWalkAux_succ, hn]
        simp only []
        by_cases hc : c = Card.SKULL
        · rw [if_pos hc, if_pos hc]
        · rw [if_neg hc, if_neg hc]
          by_cases hr : (p'.cards_revealed.length : Int) = hb
          · rw [if_pos hr, if_pos hr]
          · rw [if_neg hr, if_neg hr]
            exact ih p' g (by omega) (by omega)

/-- One-step unfolding of the reveal loop, independent of the fuel. -/
theorem revealWalk_unfold (hb : Int) (p : Player) :
    Board.revealWalk hb p =
      (match p.revealNext? with
       | none => (none, p)
       | some (card, p') =>
         if card = Card.SKULL then
           (some (if p'.collect_cards.can_play_flower then
                    [LoseCardAction Card.FLOWER, LoseCardAction Card.SKULL]
                  else
                    [LoseCardAction Card.SKULL]), p'.collect_cards)
         else if (p'.cards_revealed.length : Int) = hb then
           (some [PassAction], { p' with points := p'.points + 1 })
         else
           Board.revealWalk hb p') := by
  unfold Board.revealWalk
  cases hn : p.revealNext? with
  | none =>
    have hnil : p.cards_stack = [] := (revealNext?_none_iff p).mp hn
    rw [hnil]
    rfl
  | some cp =>
    obtain ⟨c, p'⟩ := cp
    have hlen := revealNext?_length p c p' hn
    have h1 : p.cards_stack.length = p'.cards_stack.length + 1 := hlen.symm
    rw [h1, revealWalkAux_succ, hn]

/-! ### The decimal codec round-trips -/

theorem char_digit_toNat (d : Nat) (h : d < 10) :
    (Char.ofNat (d + 48)).toNat - 48 = d := by
  interval_cases d <;> decide

theorem char_digit_isDigit (d : Nat) (h : d < 10) :
    (Char.ofNat (d + 48)).isDigit = true := by
  interval_cases d <;> decide

theorem foldl_digits (L : List Nat) (h : ∀ d ∈ L, d < 10) (acc : Nat) :
    List.foldl (fun a c => a * 10 + (c.toNat - 48)) acc
      ((L.reverse).map (fun d => Char.ofNat (d + 48)))
      = acc * 10 ^ L.length + Nat.ofDigits 10 L := by
  induction L generalizing acc with
  | nil => simp [Nat.ofDigits_nil]
  | cons d T ih =>
    have hd : d < 10 := h d (List.mem_cons_self _ _)
    have hT : ∀ x ∈ T, x < 10 := fun x hx => h x (List.mem_cons_of_mem _ hx)
    simp only [List.reverse_cons, List.map_append, List.map_cons, List.map_nil,
      List.foldl_append, List.foldl_cons, List.foldl_nil]
    rw [ih hT, char_digit_toNat d hd, Nat.ofDigits_cons, List.length_cons]
    ring

theorem natDecimalAux_eq (n : Nat) : ∀ f : Nat, n ≤ f →
    natDecimalAux f n = ((Nat.digits 10 n).reverse).map (fun d => Char.ofNat (d + 48)) := by
  induction n using Nat.strong_induction_on with
  | _ n ih =>
    intro f hf
    match n, f with
    | 0, 0 => simp [natDecimalAux]
    | 0, f + 1 => simp [natDecimalAux]
    | n + 1, 0 => omega
    | n + 1, f + 1 =>
      rw [natDecimalAux, Nat.digits_def' (by norm_num : (1:Nat) < 10) (Nat.succ_pos n),
        List.reverse_cons, List.map_append, List.map_cons, List.map_nil]
      rw [ih ((n + 1) / 10) (Nat.div_lt_self (Nat.succ_pos n) (by norm_num)) f (by
        have := Nat.div_lt_self (Nat.succ_pos n) (show 1 < 10 by norm_num)
        omega)]

theorem natDecimalChars_eq (n : Nat) :
    natDecimalChars n = ((Nat.digits 10 n).reverse).map (fun d => Char.ofNat (d + 48)) :=
  natDecimalAux_eq n n le_rfl

theorem digitsVal_natDecimalChars (n : Nat) :
    digitsVal (natDecimalChars n) = n := by
  have h10 : (1 : Nat) < 10 := by norm_num
  have := foldl_digits (Nat.digits 10 n)
    (fun d hd => Nat.digits_lt_base h10 hd) 0
  simpa [digitsVal, natDecimalChars_eq, Nat.ofDigits_digits] using this

theorem natDecimalChars_all_digit (n : Nat) :
    ∀ c ∈ natDecimalChars n, c.isDigit = true := by
  intro c hc
  rw [natDecimalChars_eq] at hc
  simp only [List.mem_map, List.mem_reverse] at hc
  obtain ⟨d, hd, rfl⟩ := hc
  exact char_digit_isDigit d (Nat.digits_lt_base (by norm_num) hd)

theorem natDecimalChars_ne_nil (n : Nat) (h : n ≠ 0) :
    natDecimalChars n ≠ [] := by
  rw [natDecimalChars_eq]
  simp only [ne_eq, List.map_eq_nil_iff, List.reverse_eq_nil_iff]
  exact Nat.digits_ne_nil_iff_ne_zero.mpr h

theorem pyIntCore_natDecimalChars (n : Nat) (h : n ≠ 0) :
    pyIntCore (natDecimalChars n) = some n := by
  rw [pyIntCore, if_pos, digitsVal_natDecimalChars]
  exact ⟨natDecimalChars_ne_nil n h, List.all_eq_true.mpr (natDecimalChars_all_digit n)⟩

theorem pyInt?_pyStrNat (m : Nat) (h : m ≠ 0) :
    pyInt? (pyStrNat m) = some (m : Int) := by
  rw [pyStrNat, if_neg h]
  cases hc : natDecimalChars m with
  | nil => exact absurd hc (natDecimalChars_ne_nil m h)
  | cons c cs =>
    have hdig : c.isDigit = true := by
      refine natDecimalChars_all_digit m c ?_
      rw [hc]
      exact List.mem_cons_self c cs
    have hdash : ¬ c = '-' := by
      intro he; rw [he] at hdig; exact absurd hdig (by decide)
    have hplus : ¬ c = '+' := by
      intro he; rw [he] at hdig; exact absurd hdig (by decide)
    change (if c = '-' then (pyIntCore cs).map (fun n => -(n : Int))
        else if c = '+' then (pyIntCore cs).map (fun n => (n : Int))
        else (pyIntCore (c :: cs)).map (fun n => (n : Int))) = some (m : Int)
    rw [if_neg hdash, if_neg hplus, ← hc, pyIntCore_natDecimalChars m h]
    rfl

theorem pyInt?_pyStrInt_pos (n : Int) (h : 1 ≤ n) :
    pyInt? (pyStrInt n) = some n := by
  obtain ⟨m, rfl⟩ := Int.eq_ofNat_of_zero_le (le_trans (by norm_num) h)
  have hm : m ≠ 0 := by
    intro he
    rw [he] at h
    exact absurd h (by decide)
  show pyInt? (pyStrNat m) = some (m : Int)
  exact pyInt?_pyStrNat m hm

theorem parse_notation_cons (c : Char) (rest : List Char) :
    parse_notation (String.mk (c :: rest)) =
      (if c = 'P' then .ok PassAction
       else if c = 'B' then
         (match pyInt? ⟨rest⟩ with
          | some n => .ok (BetAction n)
          | none => .error .ValueError)
       else if c = 'R' then .ok (RevealCardAction ⟨rest⟩)
       else if c = 'L' then .ok (LoseCardAction ⟨rest⟩)
       else if c :: rest = ['S'] then .ok (PlayCardAction Card.SKULL)
       else if c :: rest = ['F'] then .ok (PlayCardAction Card.FLOWER)
       else .error .NotationDoesNotExistException) := rfl

theorem string_cons_of_append (s : String) (c : Char) (pre : String)
    (hp : pre.data = [c]) : pre ++ s = String.mk (c :: s.data) := by
  apply String.ext
  rw [String.data_append, hp]
  rfl

/-! ### List and index helpers for the invariant proof -/

theorem getD_set_self {α : Type} (l : List α) :
    ∀ (i : Nat) (a d : α), i < l.length → (l.set i a).getD i d = a := by
  induction l with
  | nil => intro i a d h; simp at h
  | cons x t ih =>
    intro i a d h
    cases i with
    | zero => rfl
    | succ i => exact ih i a d (by simpa using h)

theorem getD_set_ne {α : Type} (l : List α) :
    ∀ (i j : Nat) (a d : α), i ≠ j → (l.set i a).getD j d = l.getD j d := by
  induction l with
  | nil => intro i j a d _; rfl
  | cons x t ih =>
    intro i j a d h
    cases i with
    | zero =>
      cases j with
      | zero => exact absurd rfl h
      | succ j => rfl
    | succ i =>
      cases j with
      | zero => rfl
      | succ j => exact ih i j a d (fun he => h (by rw [he]))

theorem set_getD_self {α : Type} (l : List α) :
    ∀ (i : Nat) (d : α), i < l.length → l.set i (l.getD i d) = l := by
  induction l with
  | nil => intro i d h; simp at h
  | cons x t ih =>
    intro i d h
    cases i with
    | zero => rfl
    | succ i =>
      show x :: t.set i (t.getD i d) = x :: t
      rw [ih i d (by simpa using h)]

theorem getD_mem {α : Type} (l : List α) :
    ∀ (i : Nat) (d : α), i < l.length → l.getD i d ∈ l := by
  induction l with
  | nil => intro i d h; simp at h
  | cons x t ih =>
    intro i d h
    cases i with
    | zero => exact List.mem_cons_self _ _
    | succ i => exact List.mem_cons_of_mem _ (ih i d (by simpa using h))

theorem sum_map_set {α : Type} (f : α → Nat) (l : List α) :
    ∀ (i : Nat) (a d : α), i < l.length →
      ((l.set i a).map f).sum + f (l.getD i d) = (l.map f).sum + f a := by
  induction l with
  | nil => intro i a d h; simp at h
  | cons x t ih =>
    intro i a d h
    cases i with
    | zero => show f a + (t.map f).sum + f x = f x + (t.map f).sum + f a; omega
    | succ i =>
      show f x + ((t.set i a).map f).sum + f (t.getD i d) = f x + (t.map f).sum + f a
      have := ih i a d (by simpa using h)
      omega

theorem relIdx_lt_n (n next i : Nat) (hn : next < n) (hi : i < n) :
    relIdx n next i < n := by
  unfold relIdx; split_ifs <;> omega

theorem relIdx_self_eq (n next : Nat) : relIdx n next next = 0 := by
  unfold relIdx; simp

theorem relIdx_pos (n next i : Nat) (hn : next < n) (hi : i < n) (hne : i ≠ next) :
    1 ≤ relIdx n next i := by
  unfold relIdx; split_ifs <;> omega

theorem mod_succ_eq (n next : Nat) (hn : next < n) :
    (next + 1) % n = if next + 1 = n then 0 else next + 1 := by
  by_cases h : next + 1 = n
  · simp [h]
  · rw [if_neg h, Nat.mod_eq_of_lt (by omega)]

theorem relIdx_shift (n next i : Nat) (hn : next < n) (hi : i < n) (hne : i ≠ next) :
    relIdx n ((next + 1) % n) i + 1 = relIdx n next i := by
  rw [mod_succ_eq n next hn]
  unfold relIdx
  split_ifs <;> omega

theorem relIdx_shift_self (n next : Nat) (hn : next < n) (hn1 : 1 < n) :
    relIdx n ((next + 1) % n) next = n - 1 := by
  rw [mod_succ_eq n next hn]
  unfold relIdx
  split_ifs <;> omega

theorem pAt_setP_self (b : Board) (i : Nat) (p : Player) (h : i < b.players.length) :
    pAt (b.setP i p) i = p :=
  getD_set_self b.players i p default h

theorem pAt_setP_ne (b : Board) (i j : Nat) (p : Player) (h : i ≠ j) :
    pAt (b.setP i p) j = pAt b j :=
  getD_set_ne b.players i j p default h

theorem length_setP (b : Board) (i : Nat) (p : Player) :
    (b.setP i p).players.length = b.players.length :=
  List.length_set b.players i p

theorem setP_pAt_self (b : Board) (i : Nat) (h : i < b.players.length) :
    b.setP i (pAt b i) = b := by
  unfold Board.setP pAt
  rw [set_getD_self b.players i default h]

theorem mem_setP {α : Type} (l : List α) (i : Nat) (a x : α) (hx : x ∈ l.set i a) :
    x ∈ l ∨ x = a := by
  rcases List.mem_or_eq_of_mem_set hx with h | h
  · exact Or.inl h
  · exact Or.inr h

/-- C7: encoding then decoding round-trips for every `Action` variant:
`parse_notation` applied to the `notation` of `PlayCard(Flower)`,
`PlayCard(Skull)`, `Bet(n)` for every `n ≥ 1`, `RevealOpponentStack(name)`
for every name, `LoseCard(Flower)`, `LoseCard(Skull)` and `Pass` returns the
original action. -/
theorem C7_decode_encode_roundtrip :
    parse_notation (notationOf (PlayCardAction Card.FLOWER)) = .ok (PlayCardAction Card.FLOWER)
  ∧ parse_notation (notationOf (PlayCardAction Card.SKULL)) = .ok (PlayCardAction Card.SKULL)
  ∧ (∀ n : Int, 1 ≤ n → parse_notation (notationOf (BetAction n)) = .ok (BetAction n))
  ∧ (∀ nm : String, parse_notation (notationOf (RevealCardAction nm)) = .ok (RevealCardAction nm))
  ∧ parse_notation (notationOf (LoseCardAction Card.FLOWER)) = .ok (LoseCardAction Card.FLOWER)
  ∧ parse_notation (notationOf (LoseCardAction Card.SKULL)) = .ok (LoseCardAction Card.SKULL)
  ∧ parse_notation (notationOf PassAction) = .ok PassAction := by
  refine ⟨by decide, by decide, ?_, ?_, by decide, by decide, by decide⟩
  · intro n hn
    show parse_notation ("B" ++ pyStrInt n) = .ok (BetAction n)
    rw [string_cons_of_append (pyStrInt n) 'B' "B" rfl, parse_notation_cons,
      if_neg (by decide : ¬ ('B' = 'P')), if_pos rfl]
    have he : (⟨(pyStrInt n).data⟩ : String) = pyStrInt n := rfl
    rw [he, pyInt?_pyStrInt_pos n hn]
  · intro nm
    show parse_notation ("R" ++ nm) = .ok (RevealCardAction nm)
    rw [string_cons_of_append nm 'R' "R" rfl, parse_notation_cons,
      if_neg (by decide : ¬ ('R' = 'P')), if_neg (by decide : ¬ ('R' = 'B')),
      if_pos rfl]

/-- C7 witness: the round trip evaluated at `Bet(7)`, its `n ≥ 1` hypothesis
discharged concretely. -/
theorem C7_witness :
    (1 : Int) ≤ 7 ∧ parse_notation (notationOf (BetAction 7)) = .ok (BetAction 7) :=
  ⟨by decide, C7_decode_encode_roundtrip.2.2.1 7 (by decide)⟩

/-- C8: where the claim says decoding fails with `InvalidNotation` exactly on
unknown prefixes *or unparseable payloads*, the code raises the bare
`ValueError` from `int(...)` on a non-numeric bet payload (only the
no-prefix case raises `NotationDoesNotExistException`); and where the claim
says `push` decodes a notation string, `push` calls the non-existent
`Action.from_notation`, so every string push on an unfinished game raises
`AttributeError` instead. -/
theorem C8_decode_failure_modes :
    parse_notation "Bx" = .error .ValueError
  ∧ parse_notation "B" = .error .ValueError
  ∧ parse_notation "" = .error .NotationDoesNotExistException
  ∧ parse_notation "x7" = .error .NotationDoesNotExistException
  ∧ (∀ b : Board, ∀ s : String, b.winner = .ok none →
      b.pushStr s = .error .AttributeError) := by
  refine ⟨by decide, by decide, by decide, by decide, ?_⟩
  intro b s hw
  unfold Board.pushStr
  rw [hw]
  rfl

/-- C8 witness: a string push on the fresh two-seat board (no winner yet)
raises `AttributeError`. -/
theorem C8_witness :
    initAB.winner = .ok none ∧ initAB.pushStr "F" = .error .AttributeError :=
  ⟨by decide, C8_decode_failure_modes.2.2.2.2 initAB "F" (by decide)⟩

/-- C10: `Board.from_state` can never rebuild a board: the classmethod first
constructs `Board(player_names=[])`, whose `__init__` evaluates
`self.players[0]` on the empty list and raises `IndexError` before
`load_state` (and hence before any redaction check) can run — on redacted
and fully-visible snapshots alike. -/
theorem C10_from_state_always_IndexError :
    ∀ s : BoardState, Board.from_state s = .error .IndexError :=
  fun _ => rfl

/-- C6: the `notation` properties do produce the claimed single ASCII tokens,
but a successful `push` appends `str(action)` — the dataclass `repr`,
`"PlayCardAction(card=...)"` — to the action log, not the single-token
notation `"F"`. -/
theorem C6_action_log_gets_repr_not_notation :
    notationOf (PlayCardAction Card.FLOWER) = "F"
  ∧ notationOf (PlayCardAction Card.SKULL) = "S"
  ∧ notationOf (BetAction 7) = "B7"
  ∧ notationOf (RevealCardAction "Alice") = "RAlice"
  ∧ notationOf (LoseCardAction Card.FLOWER) = "LF"
  ∧ notationOf (LoseCardAction Card.SKULL) = "LS"
  ∧ notationOf PassAction = "P"
  ∧ initAB.push (PlayCardAction Card.FLOWER) 0 = .ok pushedF
  ∧ pushedF.action_record = [strAction (PlayCardAction Card.FLOWER)]
  ∧ strAction (PlayCardAction Card.FLOWER) ≠ notationOf (PlayCardAction Card.FLOWER) := by
  exact ⟨rfl, rfl, by decide, rfl, rfl, rfl, rfl, rfl, rfl, by decide⟩

theorem head?_filter_eq_find? {α : Type} (p : α → Bool) (l : List α) :
    (l.filter p).head? = l.find? p := by
  induction l with
  | nil => rfl
  | cons a t ih =>
    by_cases h : p a <;> simp [List.filter_cons, List.find?_cons, h, ih]

theorem points_pred_eq :
    (fun p : Player => decide (p.points > 1)) = (fun p : Player => decide (2 ≤ p.points)) := by
  funext p
  apply decide_eq_decide.mpr
  omega

/-- C2: on every board with at least one living seat (every board the
lifecycle can produce — `push` refuses to run once fewer than two seats
live, and eliminations happen one at a time), `Board.winner` returns
exactly the claim's priority-ordered win detection. -/
theorem C2_winner_priority (b : Board)
    (h : 1 ≤ (b.players.filter (·.alive)).length) :
    b.winner = .ok (winnerSpecC2 b) := by
  unfold Board.winner winnerSpecC2 Board.more_than_one_alive Board.has_anyone_won
  by_cases hle : (b.players.filter (·.alive)).length ≤ 1
  · rw [if_pos (by simpa using (by omega : ¬ (b.players.filter (·.alive)).length > 1)),
      if_pos hle]
    cases hh : (b.players.filter (·.alive)).head? with
    | none =>
      rw [List.head?_eq_none_iff] at hh
      rw [hh] at h
      simp at h
    | some w => rfl
  · rw [if_neg (by simpa using (by omega : (b.players.filter (·.alive)).length > 1)),
      if_neg hle]
    by_cases hw : b.players.any (fun p => p.points > 1)
    · rw [if_pos hw]
      have hw2 : b.players.any (fun p => 2 ≤ p.points) = true := by
        rw [← points_pred_eq]; exact hw
      rw [if_pos hw2]
      rw [head?_filter_eq_find?, points_pred_eq]
      cases hf : b.players.find? (fun p => 2 ≤ p.points) with
      | none =>
        rw [List.find?_eq_none] at hf
        rw [List.any_eq_true] at hw2
        obtain ⟨p, hp, hpts⟩ := hw2
        exact absurd hpts (by simpa using hf p hp)
      | some w => rfl
    · rw [if_neg hw]
      have hw2 : ¬ b.players.any (fun p => 2 ≤ p.points) = true := by
        rw [← points_pred_eq]; exact hw
      rw [if_neg hw2]

/-- C2 witness: the fresh two-seat board has a living seat and its winner
query returns the spec-side value (here: no winner). -/
theorem C2_witness :
    1 ≤ (initAB.players.filter (·.alive)).length
  ∧ initAB.winner = .ok (winnerSpecC2 initAB) :=
  ⟨by decide, C2_winner_priority initAB (by decide)⟩

/-- C5 counterexample: computing the legal moves of the seat-to-move is *not*
side-effect free — on a reveal-stage board it moves the bettor's committed
card to the revealed pile and awards a point. -/
theorem C5_counterexample :
    (cexC5.get_legal_moves).2 ≠ cexC5
  ∧ ((cexC5.get_legal_moves).2.players.getD 0 default).points
      ≠ (cexC5.players.getD 0 default).points
  ∧ ((cexC5.get_legal_moves).2.players.getD 0 default).cards_stack
      ≠ (cexC5.players.getD 0 default).cards_stack := by
  exact ⟨by decide, by decide, by decide⟩

/-- C5 (amended): legal-move computation leaves the whole board unchanged
whenever the seat-to-move is dead, no longer playing, or not the bet holder
(the commit/bet stage and forced-pass cases); only the reveal stage mutates. -/
theorem C5_legal_moves_pure_outside_reveal (b : Board)
    (h : ¬ b.nextP.alive ∨ ¬ b.nextP.is_playing ∨ b.bet_holder ≠ some b.next_player) :
    b.get_legal_moves.2 = b := by
  unfold Board.get_legal_moves
  split_ifs with h1 h2
  · rfl
  · rfl
  · rcases h with h | h | h
    · exact absurd (Or.inl h) h1
    · exact absurd (Or.inr h) h1
    · exact absurd h h2

/-- C5 witness: the fresh two-seat board is in the no-bet commit stage and
its legal-move computation returns it unchanged. -/
theorem C5_witness :
    initAB.bet_holder ≠ some initAB.next_player
  ∧ initAB.get_legal_moves.2 = initAB :=
  ⟨by decide, C5_legal_moves_pure_outside_reveal initAB (Or.inr (Or.inr (by decide)))⟩

/-! ### Step lemmas for the reveal walk -/

theorem getLast?_mem' {α : Type} (l : List α) :
    ∀ (c : α), l.getLast? = some c → c ∈ l := by
  induction l with
  | nil => intro c h; simp at h
  | cons x t ih =>
    intro c h
    cases ht : t with
    | nil =>
      subst ht
      simp only [List.getLast?_singleton, Option.some.injEq] at h
      simp [h]
    | cons y u =>
      subst ht
      rw [List.getLast?_cons_cons] at h
      exact List.mem_cons_of_mem _ (ih c h)

theorem revealNext?_spec (p : Player) (c : Card) (p' : Player)
    (h : p.revealNext? = some (c, p')) :
    p'.cards_hand = p.cards_hand ∧ p'.cards_revealed = p.cards_revealed ++ [c] ∧
    p'.cards_stack = p.cards_stack.dropLast ∧ p'.name = p.name ∧
    p'.alive = p.alive ∧ p'.is_playing = p.is_playing ∧ p'.points = p.points ∧
    c ∈ p.cards_stack := by
  unfold Player.revealNext? at h
  cases hs : p.cards_stack.getLast? with
  | none => rw [hs] at h; exact absurd h (by simp)
  | some d =>
    rw [hs] at h
    simp only [Option.some.injEq, Prod.mk.injEq] at h
    obtain ⟨rfl, rfl⟩ := h
    exact ⟨rfl, rfl, rfl, rfl, rfl, rfl, rfl, getLast?_mem' _ _ hs⟩

theorem collect_spec (p : Player) :
    (p.collect_cards).cards_hand = p.cards_hand ++ p.cards_stack ++ p.cards_revealed ∧
    (p.collect_cards).cards_stack = [] ∧ (p.collect_cards).cards_revealed = [] ∧
    (p.collect_cards).name = p.name ∧ (p.collect_cards).points = p.points ∧
    (p.collect_cards).is_playing = p.is_playing ∧
    (p.cards_hand ++ p.cards_stack ++ p.cards_revealed ≠ [] →
      (p.collect_cards).alive = p.alive) := by
  refine ⟨rfl, rfl, rfl, rfl, rfl, rfl, ?_⟩
  intro h
  show (if (p.cards_hand ++ p.cards_stack ++ p.cards_revealed).length = 0
    then false else p.alive) = p.alive
  rw [if_neg (by simpa using h)]

theorem cardsOK_collect (p : Player) (h : cardsOK p) : cardsOK p.collect_cards := by
  obtain ⟨h1, h2, h3⟩ := h
  refine ⟨?_, ?_, ?_⟩
  · intro c hc
    show c = Card.FLOWER ∨ c = Card.SKULL
    rcases List.mem_append.mp hc with hc' | hc'
    · rcases List.mem_append.mp hc' with hc'' | hc''
      · exact h1 c hc''
      · exact h2 c hc''
    · exact h3 c hc'
  · intro c hc; exact absurd hc (by simp [Player.collect_cards])
  · intro c hc; exact absurd hc (by simp [Player.collect_cards])

theorem contains_iff_mem (l : List Card) (c : Card) :
    l.contains c = true ↔ c ∈ l := by
  simp [List.contains]

/-- Outcome analysis of the reveal walk (`revealWalk_unfold` driven to the
end), sufficient to re-establish the invariant: field preservation, plus one
of skull-stop, bet-reached or stack-exhausted. -/
theorem walk_spec_aux (hb : Int) :
    ∀ (n : Nat) (p : Player), p.cards_stack.length = n → cardsOK p →
      ∀ res p', Board.revealWalk hb p = (res, p') →
      (p'.name = p.name ∧ p'.alive = p.alive ∧ p'.is_playing = p.is_playing ∧ cardsOK p') ∧
      ((res = some (if p'.can_play_flower then
            [LoseCardAction Card.FLOWER, LoseCardAction Card.SKULL]
          else [LoseCardAction Card.SKULL]) ∧
        p'.cards_stack = [] ∧ p'.cards_revealed = [] ∧ p'.can_play_skull = true ∧
        p'.points = p.points ∧
        p'.cards_hand.length =
          p.cards_hand.length + p.cards_stack.length + p.cards_revealed.length) ∨
       (res = some [PassAction] ∧ p'.points = p.points + 1 ∧
        p'.cards_hand = p.cards_hand ∧
        p'.cards_stack.length + p'.cards_revealed.length =
          p.cards_stack.length + p.cards_revealed.length ∧
        (p'.cards_revealed.length : Int) = hb) ∨
       (res = none ∧ p'.cards_stack = [] ∧ p'.cards_hand = p.cards_hand ∧
        p'.points = p.points ∧
        p'.cards_revealed.length = p.cards_revealed.length + p.cards_stack.length ∧
        ((p.cards_revealed.length : Int) < hb → (p'.cards_revealed.length : Int) < hb))) := by
  intro n
  induction n using Nat.strong_induction_on with
  | _ n ih =>
    intro p hn hOK res p' hw
    rw [revealWalk_unfold] at hw
    cases hnx : p.revealNext? with
    | none =>
      rw [hnx] at hw
      simp only [Prod.mk.injEq] at hw
      obtain ⟨hres, hp'⟩ := hw
      subst hres
      subst hp'
      have hnil : p.cards_stack = [] := (revealNext?_none_iff p).mp hnx
      exact ⟨⟨rfl, rfl, rfl, hOK⟩,
        Or.inr (Or.inr ⟨rfl, hnil, rfl, rfl, by simp [hnil], fun h => h⟩)⟩
    | some cp =>
      obtain ⟨c, p₁⟩ := cp
      rw [hnx] at hw
      obtain ⟨e1, e2, e3, e4, e5, e6, e7, e8⟩ := revealNext?_spec p c p₁ hnx
      have hOK1 : cardsOK p₁ := by
        obtain ⟨g1, g2, g3⟩ := hOK
        refine ⟨?_, ?_, ?_⟩
        · rw [e1]; exact g1
        · rw [e3]; intro x hx; exact g2 x (List.dropLast_subset _ hx)
        · rw [e2]; intro x hx
          rcases List.mem_append.mp hx with hx' | hx'
          · exact g3 x hx'
          · rw [List.mem_singleton.mp hx']; exact g2 c e8
      have hlen1 : p₁.cards_stack.length + 1 = p.cards_stack.length :=
        revealNext?_length p c p₁ hnx
      simp only [] at hw
      by_cases hc : c = Card.SKULL
      · rw [if_pos hc] at hw
        simp only [Prod.mk.injEq] at hw
        obtain ⟨hres, hp'⟩ := hw
        subst hres
        subst hp'
        obtain ⟨k1, k2, k3, k4, k5, k6, k7⟩ := collect_spec p₁
        have htot : p₁.cards_hand ++ p₁.cards_stack ++ p₁.cards_revealed ≠ [] := by
          intro hcon
          have hcm : c ∈ p₁.cards_revealed := by rw [e2]; simp
          have hcm2 : c ∈ p₁.cards_hand ++ p₁.cards_stack ++ p₁.cards_revealed := by
            rw [List.append_assoc]
            exact List.mem_append.mpr (Or.inr (List.mem_append.mpr (Or.inr hcm)))
          rw [hcon] at hcm2
          simp at hcm2
        refine ⟨⟨by rw [k4, e4], by rw [k7 htot, e5], by rw [k6, e6],
          cardsOK_collect p₁ hOK1⟩, Or.inl ⟨rfl, k2, k3, ?_, by rw [k5, e7], ?_⟩⟩
        · show (p₁.collect_cards).cards_hand.contains Card.SKULL = true
          rw [contains_iff_mem, k1, e2]
          rw [hc] at e8 ⊢
          rw [List.append_assoc]
          refine List.mem_append.mpr (Or.inr (List.mem_append.mpr (Or.inr ?_)))
          simp
        · rw [k1, e1, e3, e2]
          simp only [List.length_append, List.length_dropLast, List.length_singleton]
          omega
      · rw [if_neg hc] at hw
        by_cases hr : (p₁.cards_revealed.length : Int) = hb
        · rw [if_pos hr] at hw
          simp only [Prod.mk.injEq] at hw
          obtain ⟨hres, hp'⟩ := hw
          subst hres
          subst hp'
          refine ⟨⟨e4, e5, e6, ?_⟩, Or.inr (Or.inl ⟨rfl, by rw [e7], e1, ?_, hr⟩)⟩
          · obtain ⟨g1, g2, g3⟩ := hOK1
            exact ⟨g1, g2, g3⟩
          · show p₁.cards_stack.length + p₁.cards_revealed.length =
              p.cards_stack.length + p.cards_revealed.length
            rw [e3, e2]
            simp only [List.length_dropLast, List.length_append, List.length_singleton]
            omega
        · rw [if_neg hr] at hw
          have hlt : p₁.cards_stack.length < n := by omega
          obtain ⟨⟨m1, m2, m3, m4⟩, hcase⟩ := ih p₁.cards_stack.length hlt p₁ rfl hOK1 res p' hw
          refine ⟨⟨by rw [m1, e4], by rw [m2, e5], by rw [m3, e6], m4⟩, ?_⟩
          rcases hcase with ⟨q1, q2, q3, q4, q5, q6⟩ | ⟨q1, q2, q3, q4, q5⟩ |
            ⟨q1, q2, q3, q4, q5, q6⟩
          · refine Or.inl ⟨q1, q2, q3, q4, by rw [q5, e7], ?_⟩
            rw [q6, e1, e3, e2]
            simp only [List.length_dropLast, List.length_append, List.length_singleton]
            omega
          · refine Or.inr (Or.inl ⟨q1, by rw [q2, e7], by rw [q3, e1], ?_, q5⟩)
            rw [q4, e3, e2]
            simp only [List.length_dropLast, List.length_append, List.length_singleton]
            omega
          · refine Or.inr (Or.inr ⟨q1, q2, by rw [q3, e1], by rw [q4, e7], ?_, ?_⟩)
            · rw [q5, e2, e3]
              simp only [List.length_dropLast, List.length_append, List.length_singleton]
              omega
            · intro hplt
              have h1 : (p₁.cards_revealed.length : Int) < hb := by
                have h2 : p₁.cards_revealed.length = p.cards_revealed.length + 1 := by
                  rw [e2]; simp
                rw [h2]
                push_cast
                omega
              exact q6 h1

/-- Outcome analysis of the reveal walk at its natural fuel. -/
theorem walk_spec (hb : Int) (p : Player) (hOK : cardsOK p) (res : Option (List Action))
    (p' : Player) (hw : Board.revealWalk hb p = (res, p')) :
    (p'.name = p.name ∧ p'.alive = p.alive ∧ p'.is_playing = p.is_playing ∧ cardsOK p') ∧
    ((res = some (if p'.can_play_flower then
          [LoseCardAction Card.FLOWER, LoseCardAction Card.SKULL]
        else [LoseCardAction Card.SKULL]) ∧
      p'.cards_stack = [] ∧ p'.cards_revealed = [] ∧ p'.can_play_skull = true ∧
      p'.points = p.points ∧
      p'.cards_hand.length =
        p.cards_hand.length + p.cards_stack.length + p.cards_revealed.length) ∨
     (res = some [PassAction] ∧ p'.points = p.points + 1 ∧
      p'.cards_hand = p.cards_hand ∧
      p'.cards_stack.length + p'.cards_revealed.length =
        p.cards_stack.length + p.cards_revealed.length ∧
      (p'.cards_revealed.length : Int) = hb) ∨
     (res = none ∧ p'.cards_stack = [] ∧ p'.cards_hand = p.cards_hand ∧
      p'.points = p.points ∧
      p'.cards_revealed.length = p.cards_revealed.length + p.cards_stack.length ∧
      ((p.cards_revealed.length : Int) < hb → (p'.cards_revealed.length : Int) < hb))) :=
  walk_spec_aux hb p.cards_stack.length p rfl hOK res p' hw

/-! ### Board-level counting and membership helpers -/

theorem pAt_mem (b : Board) (i : Nat) (h : i < b.players.length) : pAt b i ∈ b.players :=
  getD_mem b.players i default h

theorem getD_eq_getElem' {α : Type} (l : List α) :
    ∀ (i : Nat) (d : α), i < l.length → l[i]? = some (l.getD i d) := by
  induction l with
  | nil => intro i d h; simp at h
  | cons x t ih =>
    intro i d h
    cases i with
    | zero => simp [List.getD_cons_zero]
    | succ i =>
      rw [List.getElem?_cons_succ, List.getD_cons_succ]
      exact ih i d (by simpa using h)

theorem nbr_setP (b : Board) (i : Nat) (p : Player) (h : i < b.players.length) :
    (b.setP i p).nbr_cards_on_board + (pAt b i).cards_stack.length
      = b.nbr_cards_on_board + p.cards_stack.length :=
  sum_map_set (fun q => q.cards_stack.length) b.players i p default h

theorem shown_setP (b : Board) (i : Nat) (p : Player) (h : i < b.players.length) :
    (b.setP i p).cards_shown + (pAt b i).cards_revealed.length
      = b.cards_shown + p.cards_revealed.length :=
  sum_map_set (fun q => q.cards_revealed.length) b.players i p default h

theorem getD_map {α β : Type} (f : α → β) (l : List α) :
    ∀ (i : Nat) (d : α), i < l.length → (l.map f).getD i (f d) = f (l.getD i d) := by
  induction l with
  | nil => intro i d h; simp at h
  | cons x t ih =>
    intro i d h
    cases i with
    | zero => rfl
    | succ i => exact ih i d (by simpa using h)

theorem names_setP (b : Board) (i : Nat) (p : Player) (h : i < b.players.length)
    (hname : p.name = (pAt b i).name) :
    (b.setP i p).players.map (·.name) = b.players.map (·.name) := by
  show (b.players.set i p).map (·.name) = b.players.map (·.name)
  rw [List.map_set]
  have h1 : p.name = (b.players.map (·.name)).getD i ((default : Player).name) := by
    rw [getD_map (·.name) b.players i default h]
    exact hname
  rw [h1, set_getD_self _ _ _ (by simpa using h)]

theorem sum_map_pos {α : Type} (f : α → Nat) (d : α) (l : List α) :
    1 ≤ (l.map f).sum → ∃ i, i < l.length ∧ 1 ≤ f (l.getD i d) := by
  induction l with
  | nil => intro h; simp at h
  | cons x t ih =>
    intro h
    by_cases hx : 1 ≤ f x
    · exact ⟨0, by simp, hx⟩
    · have ht : 1 ≤ (t.map f).sum := by
        have : (List.map f (x :: t)).sum = f x + (t.map f).sum := by simp
        omega
      obtain ⟨i, hi, hfi⟩ := ih ht
      exact ⟨i + 1, by simpa using hi, hfi⟩

theorem revealListMoves_ne_nil (b : Board) (i : Nat) (hi : i < b.players.length)
    (hne : i ≠ b.next_player) (hs : (pAt b i).cards_stack ≠ []) :
    revealListMoves b ≠ [] := by
  unfold revealListMoves
  intro hcon
  rw [List.map_eq_nil_iff] at hcon
  have hmem : (i, pAt b i) ∈ b.players.enum := by
    rw [List.mk_mem_enum_iff_getElem?]
    exact getD_eq_getElem' b.players i default hi
  have hf : (i, pAt b i) ∈ (b.players.enum).filter
      (fun pi => pi.1 ≠ b.next_player ∧ pi.2.cards_stack.length > 0) := by
    rw [List.mem_filter]
    refine ⟨hmem, ?_⟩
    have : 0 < (pAt b i).cards_stack.length := List.length_pos.mpr hs
    simp only [decide_eq_true_eq]
    constructor
    · exact hne
    · omega
  rw [hcon] at hf
  simp at hf

theorem mem_intRange (lo hi k : Int) : k ∈ intRange lo hi ↔ lo ≤ k ∧ k < hi := by
  unfold intRange
  simp only [List.mem_map, List.mem_range]
  constructor
  · rintro ⟨j, hj, rfl⟩
    omega
  · rintro ⟨h1, h2⟩
    refine ⟨(k - lo).toNat, by omega, by omega⟩

theorem intRange_ne_nil (lo hi : Int) (h : lo < hi) : intRange lo hi ≠ [] := by
  intro hcon
  have : lo ∈ intRange lo hi := (mem_intRange lo hi lo).mpr ⟨le_rfl, h⟩
  rw [hcon] at this
  simp at this

theorem nextP_eq_pAt (b : Board) : b.nextP = pAt b b.next_player := rfl

theorem hand_play_or (p : Player) (hOK : cardsOK p) (h : p.cards_hand ≠ []) :
    p.can_play_flower = true ∨ p.can_play_skull = true := by
  cases hh : p.cards_hand with
  | nil => exact absurd hh h
  | cons c t =>
    have hc : c = Card.FLOWER ∨ c = Card.SKULL := hOK.1 c (by rw [hh]; simp)
    rcases hc with hc | hc
    · left
      show p.cards_hand.contains Card.FLOWER = true
      rw [contains_iff_mem, hh, ← hc]
      simp
    · right
      show p.cards_hand.contains Card.SKULL = true
      rw [contains_iff_mem, hh, ← hc]
      simp

/-- Which actions the commit/bet stage can offer. -/
theorem betStage_mem (b : Board) (a : Action) (ha : a ∈ b.betStageMoves) :
    (b.bet_holder = none ∧ a = PlayCardAction Card.FLOWER ∧ b.nextP.can_play_flower = true)
  ∨ (b.bet_holder = none ∧ a = PlayCardAction Card.SKULL ∧ b.nextP.can_play_skull = true)
  ∨ (b.bet_holder ≠ none ∧ a = PassAction)
  ∨ (∃ k : Int, a = BetAction k ∧ b.highest_bet + 1 ≤ k ∧
      k ≤ (b.nbr_cards_on_board : Int) ∧
      b.players.any (fun p => p.cards_stack.length = 0 ∧ p.is_playing) = false) := by
  have inner : ∀ x : Action,
      x ∈ (if b.bet_holder = none then
        (if b.nextP.can_play_flower then [PlayCardAction Card.FLOWER] else []) ++
        (if b.nextP.can_play_skull then [PlayCardAction Card.SKULL] else [])
      else [PassAction]) →
      (b.bet_holder = none ∧ x = PlayCardAction Card.FLOWER ∧ b.nextP.can_play_flower = true)
    ∨ (b.bet_holder = none ∧ x = PlayCardAction Card.SKULL ∧ b.nextP.can_play_skull = true)
    ∨ (b.bet_holder ≠ none ∧ x = PassAction) := by
    intro x hx
    by_cases hbn : b.bet_holder = none
    · rw [if_pos hbn] at hx
      rcases List.mem_append.mp hx with hy | hy
      · by_cases hf : b.nextP.can_play_flower = true
        · rw [if_pos hf] at hy
          exact Or.inl ⟨hbn, List.mem_singleton.mp hy, hf⟩
        · rw [if_neg hf] at hy
          exact absurd hy (List.not_mem_nil x)
      · by_cases hs : b.nextP.can_play_skull = true
        · rw [if_pos hs] at hy
          exact Or.inr (Or.inl ⟨hbn, List.mem_singleton.mp hy, hs⟩)
        · rw [if_neg hs] at hy
          exact absurd hy (List.not_mem_nil x)
    · rw [if_neg hbn] at hx
      exact Or.inr (Or.inr ⟨hbn, List.mem_singleton.mp hx⟩)
  unfold Board.betStageMoves at ha
  simp only [] at ha
  by_cases hopen : b.players.any (fun p => p.cards_stack.length = 0 ∧ p.is_playing) = true
  · rw [if_neg (by simpa using hopen)] at ha
    rcases inner a ha with h | h | h
    · exact Or.inl h
    · exact Or.inr (Or.inl h)
    · exact Or.inr (Or.inr (Or.inl h))
  · rw [if_pos (by simpa using hopen)] at ha
    rcases List.mem_append.mp ha with hx | hx
    · rcases inner a hx with h | h | h
      · exact Or.inl h
      · exact Or.inr (Or.inl h)
      · exact Or.inr (Or.inr (Or.inl h))
    · rw [List.mem_map] at hx
      obtain ⟨k, hk, rfl⟩ := hx
      rw [mem_intRange] at hk
      refine Or.inr (Or.inr (Or.inr ⟨k, rfl, by omega, by omega, ?_⟩))
      exact Bool.eq_false_iff.mpr (fun hcon => hopen hcon)

/-- The commit/bet stage never offers an empty list, given any one of:
someone already bet; the seat to move can commit a card; or betting is open
with no bet placed yet and at least one committed card on the table. -/
theorem betStage_ne_nil (b : Board)
    (hcase : b.bet_holder ≠ none
      ∨ (b.nextP.can_play_flower = true ∨ b.nextP.can_play_skull = true)
      ∨ (b.players.any (fun p => p.cards_stack.length = 0 ∧ p.is_playing) = false ∧
          b.highest_bet = 0 ∧ 1 ≤ b.nbr_cards_on_board)) :
    b.betStageMoves ≠ [] := by
  have inner_ne : b.bet_holder ≠ none
      ∨ (b.nextP.can_play_flower = true ∨ b.nextP.can_play_skull = true) →
      (if b.bet_holder = none then
        (if b.nextP.can_play_flower then [PlayCardAction Card.FLOWER] else []) ++
        (if b.nextP.can_play_skull then [PlayCardAction Card.SKULL] else [])
      else [PassAction]) ≠ [] := by
    intro hc hcon
    by_cases hbn : b.bet_holder = none
    · rw [if_pos hbn] at hcon
      rw [List.append_eq_nil] at hcon
      obtain ⟨hc1, hc2⟩ := hcon
      rcases hc with hc | hc | hc
      · exact hc hbn
      · rw [if_pos hc] at hc1; exact absurd hc1 (by simp)
      · rw [if_pos hc] at hc2; exact absurd hc2 (by simp)
    · rw [if_neg hbn] at hcon
      exact absurd hcon (by simp)
  unfold Board.betStageMoves
  simp only []
  intro hcon
  by_cases hopen : b.players.any (fun p => p.cards_stack.length = 0 ∧ p.is_playing) = true
  · rw [if_neg (by simpa using hopen)] at hcon
    rcases hcase with h | h | h
    · exact inner_ne (Or.inl h) hcon
    · exact inner_ne (Or.inr h) hcon
    · rw [h.1] at hopen; exact absurd hopen (by simp)
  · rw [if_pos (by simpa using hopen)] at hcon
    rw [List.append_eq_nil] at hcon
    obtain ⟨hc1, hc2⟩ := hcon
    rcases hcase with h | h | h
    · exact inner_ne (Or.inl h) hc1
    · exact inner_ne (Or.inr h) hc1
    · obtain ⟨-, hb0, hcards⟩ := h
      rw [List.map_eq_nil_iff] at hc2
      exact intRange_ne_nil _ _ (by omega) hc2

theorem rev_le_shown (b : Board) (i : Nat) (hi : i < b.players.length) :
    (pAt b i).cards_revealed.length ≤ b.cards_shown := by
  unfold Board.cards_shown
  refine List.single_le_sum (fun x _ => Nat.zero_le x) _ ?_
  exact List.mem_map_of_mem _ (pAt_mem b i hi)

theorem stack_le_nbr (b : Board) (i : Nat) (hi : i < b.players.length) :
    (pAt b i).cards_stack.length ≤ b.nbr_cards_on_board := by
  unfold Board.nbr_cards_on_board
  refine List.single_le_sum (fun x _ => Nat.zero_le x) _ ?_
  exact List.mem_map_of_mem _ (pAt_mem b i hi)

theorem pAt_eq_getElem (b : Board) (i : Nat) (hi : i < b.players.length) :
    pAt b i = b.players[i] := by
  have h1 := getD_eq_getElem' b.players i default hi
  rw [List.getElem?_eq_getElem hi] at h1
  exact (Option.some.inj h1).symm

theorem mem_pAt (b : Board) (p : Player) (hp : p ∈ b.players) :
    ∃ i, i < b.players.length ∧ pAt b i = p := by
  obtain ⟨i, hi, he⟩ := List.mem_iff_getElem.mp hp
  exact ⟨i, hi, by rw [pAt_eq_getElem b i hi]; exact he⟩

/-- Packaging lemma: check the bet-holder clause of `INV` by cases. -/
theorem INV_intro (b : Board) (hcore : coreINV b) (hcache : legalCache b)
    (hne : b.legal_moves ≠ [])
    (hnone : b.bet_holder = none → b.highest_bet = 0 ∧ b.cards_shown = 0 ∧ wInv b)
    (hsome : ∀ h, b.bet_holder = some h →
      h < b.players.length ∧ (pAt b h).alive = true ∧ (pAt b h).is_playing = true ∧
      1 ≤ b.highest_bet ∧ hInv3 b h ∧
      (phasePre b h ∨ phaseMid b h ∨ phaseSkull b h ∨ phasePoint b h)) :
    INV b := by
  refine ⟨hcore, hcache, hne, ?_⟩
  cases hbh : b.bet_holder with
  | none => exact hnone hbh
  | some h => exact hsome h hbh

/-- Re-establishing the invariant when the seat to move is dead or done:
the stage yields `[Pass]` without touching the board. -/
theorem estab_dead (b3 : Board) (hcore : coreINV b3) (hpp : postPhase b3)
    (h1 : ¬ (b3.nextP.alive = true ∧ b3.nextP.is_playing = true)) :
    INV { b3 with legal_moves := [PassAction] } := by
  refine ⟨hcore, ⟨fun _ => rfl, fun ha hp _ => absurd ⟨ha, hp⟩ h1⟩, by simp, ?_⟩
  unfold postPhase at hpp
  cases hbh : b3.bet_holder with
  | none =>
    rw [hbh] at hpp
    exact hpp
  | some h =>
    rw [hbh] at hpp
    obtain ⟨hlt, hal, hpl, hhb, h3, hdisj⟩ := hpp
    have hne : b3.next_player ≠ h := by
      intro he
      refine h1 ⟨?_, ?_⟩
      · show (pAt b3 b3.next_player).alive = true
        rw [he]; exact hal
      · show (pAt b3 b3.next_player).is_playing = true
        rw [he]; exact hpl
    refine ⟨hlt, hal, hpl, hhb, h3, ?_⟩
    rcases hdisj with ⟨ha1, ha2, ha3⟩ | ⟨hm1, hm2, hm3, hm4⟩
    · exact Or.inl ⟨ha1, ha2, ha3, hne⟩
    · exact Or.inr (Or.inl ⟨hm1, hm2, hm3, hm4, fun he => absurd he hne⟩)

/-- Re-establishing the invariant in the commit/bet stage: the stage is pure
and the cached list is the (non-empty) stage computation. -/
theorem estab_bet (b3 : Board) (hcore : coreINV b3) (hpp : postPhase b3)
    (hal : b3.nextP.alive = true) (hpl : b3.nextP.is_playing = true)
    (h2 : b3.bet_holder ≠ some b3.next_player) :
    INV { b3 with legal_moves := b3.betStageMoves } := by
  obtain ⟨hn0, hnlt, hnd, hOK, hPA, hDE⟩ := hcore
  refine ⟨⟨hn0, hnlt, hnd, hOK, hPA, hDE⟩,
    ⟨fun hc => absurd ⟨hal, hpl⟩ hc, fun _ _ _ => rfl⟩, ?_, ?_⟩
  · show b3.betStageMoves ≠ []
    unfold postPhase at hpp
    cases hbh : b3.bet_holder with
    | some h => exact betStage_ne_nil b3 (Or.inl (by rw [hbh]; simp))
    | none =>
      rw [hbh] at hpp
      obtain ⟨hb0, hsh, hw⟩ := hpp
      by_cases hhand : b3.nextP.cards_hand = []
      · -- the seat has committed everything: betting must be open
        have hnoact : ∀ i, i < b3.players.length → (pAt b3 i).is_playing = true →
            (pAt b3 i).cards_stack = [] → False := by
          intro i hi hpi hsi
          have := hw b3.next_player hnlt hpl hhand i hi hpi hsi
          rw [relIdx_self_eq] at this
          omega
        have hany : b3.players.any
            (fun p => p.cards_stack.length = 0 ∧ p.is_playing) = false := by
          rw [List.any_eq_false]
          intro p hp
          obtain ⟨i, hi, rfl⟩ := mem_pAt b3 p hp
          simp only [decide_eq_true_eq, not_and]
          intro hlen hpi
          exact hnoact i hi hpi (List.length_eq_zero.mp hlen)
        have hstacknext : (pAt b3 b3.next_player).cards_stack ≠ [] := by
          intro hcon
          exact hnoact b3.next_player hnlt hpl hcon
        have hge : 1 ≤ b3.nbr_cards_on_board := by
          have h1 : 1 ≤ (pAt b3 b3.next_player).cards_stack.length :=
            Nat.one_le_iff_ne_zero.mpr (fun hz =>
              hstacknext (List.length_eq_zero.mp hz))
          have h2 := stack_le_nbr b3 b3.next_player hnlt
          omega
        exact betStage_ne_nil b3 (Or.inr (Or.inr ⟨hany, hb0, hge⟩))
      · exact betStage_ne_nil b3
          (Or.inr (Or.inl (hand_play_or b3.nextP (hOK _ (pAt_mem b3 _ hnlt)) hhand)))
  · unfold postPhase at hpp
    cases hbh : b3.bet_holder with
    | none =>
      rw [hbh] at hpp
      exact hpp
    | some h =>
      rw [hbh] at hpp
      obtain ⟨hlt, hal', hpl', hhb, h3, hdisj⟩ := hpp
      have hne : b3.next_player ≠ h := by
        intro he
        rw [hbh, he] at h2
        exact h2 rfl
      refine ⟨hlt, hal', hpl', hhb, h3, ?_⟩
      rcases hdisj with ⟨ha1, ha2, ha3⟩ | ⟨hm1, hm2, hm3, hm4⟩
      · exact Or.inl ⟨ha1, ha2, ha3, hne⟩
      · exact Or.inr (Or.inl ⟨hm1, hm2, hm3, hm4, fun he => absurd he hne⟩)

/-- Re-establishing the invariant in the reveal stage: the walk ends in a
skull forfeit, a delivered bet, or the (provably non-empty) opponent-reveal
list. -/
theorem estab_reveal (b3 : Board) (hcore : coreINV b3) (hpp : postPhase b3)
    (hal : b3.nextP.alive = true) (hpl : b3.nextP.is_playing = true)
    (h2 : b3.bet_holder = some b3.next_player) :
    INV { (b3.revealStage).2 with legal_moves := (b3.revealStage).1 } := by
  obtain ⟨hn0, hnlt, hnd, hOK, hPA, hDE⟩ := hcore
  unfold postPhase at hpp
  rw [h2] at hpp
  obtain ⟨-, -, -, hhb, h3, hdisj⟩ := hpp
  obtain ⟨res, p', hRW⟩ : ∃ res p',
      Board.revealWalk b3.highest_bet b3.nextP = (res, p') := ⟨_, _, rfl⟩
  obtain ⟨⟨m1, m2, m3, m4⟩, hcase⟩ :=
    walk_spec b3.highest_bet b3.nextP (hOK _ (pAt_mem b3 _ hnlt)) res p' hRW
  have hcore4 : coreINV (b3.setP b3.next_player p') := by
    refine ⟨?_, ?_, ?_, ?_, ?_, ?_⟩
    · rw [length_setP]; exact hn0
    · rw [length_setP]; exact hnlt
    · rw [names_setP b3 _ p' hnlt (by rw [m1]; rfl)]; exact hnd
    · intro q hq
      rcases mem_setP _ _ _ _ hq with hq' | hq'
      · exact hOK q hq'
      · rw [hq']; exact m4
    · intro q hq
      rcases mem_setP _ _ _ _ hq with hq' | hq'
      · exact hPA q hq'
      · rw [hq']
        intro _
        rw [m2]
        exact hal
    · intro q hq
      rcases mem_setP _ _ _ _ hq with hq' | hq'
      · exact hDE q hq'
      · rw [hq']
        intro hdead
        rw [m2] at hdead
        rw [hal] at hdead
        exact absurd hdead (by simp)
  have h3' : hInv3 (b3.setP b3.next_player p') b3.next_player := by
    intro i hi hne hpi
    rw [length_setP] at hi
    rw [pAt_setP_ne b3 _ i p' (fun he => hne he.symm)] at hpi
    have := h3 i hi hne hpi
    show relIdx (b3.setP b3.next_player p').players.length
      (b3.setP b3.next_player p').next_player i < _
    rw [length_setP]
    exact this
  have hp'al : p'.alive = true := by rw [m2]; exact hal
  have hp'pl : p'.is_playing = true := by rw [m3]; exact hpl
  have hpAt4 : pAt (b3.setP b3.next_player p') b3.next_player = p' :=
    pAt_setP_self b3 _ p' hnlt
  have hcal : (pAt (b3.setP b3.next_player p') b3.next_player).alive = true := by
    rw [hpAt4]; exact hp'al
  have hcpl : (pAt (b3.setP b3.next_player p') b3.next_player).is_playing = true := by
    rw [hpAt4]; exact hp'pl
  cases res with
  | some mv =>
    have hRS : b3.revealStage = (mv, b3.setP b3.next_player p') := by
      unfold Board.revealStage
      rw [hRW]
    rw [hRS]
    rcases hcase with ⟨hq, hA1, hA2, hA3, hA4, hA5⟩ | ⟨hq, hB1, hB2, hB3, hB4⟩ |
      ⟨hq, hC⟩
    · -- skull stop
      have hmv : mv = (if p'.can_play_flower then
          [LoseCardAction Card.FLOWER, LoseCardAction Card.SKULL]
        else [LoseCardAction Card.SKULL]) := Option.some.inj hq
      refine INV_intro _ hcore4
        ⟨fun hc => absurd ⟨hcal, hcpl⟩ hc, fun _ _ hc => absurd h2 hc⟩ ?_
        (fun hbh => absurd (h2.symm.trans hbh) (by simp)) (fun h hbh => ?_)
      · show mv ≠ []
        rw [hmv]
        by_cases hf : p'.can_play_flower = true
        · rw [if_pos hf]; simp
        · rw [if_neg hf]; simp
      · have hh : b3.next_player = h := Option.some.inj (h2.symm.trans hbh)
        subst hh
        have hlen4 : b3.next_player < (b3.setP b3.next_player p').players.length := by
          rw [length_setP]; exact hnlt
        have hA1' : (pAt (b3.setP b3.next_player p') b3.next_player).cards_stack = [] := by
          rw [hpAt4]; exact hA1
        have hA2' : (pAt (b3.setP b3.next_player p') b3.next_player).cards_revealed = [] := by
          rw [hpAt4]; exact hA2
        have hA3' : (pAt (b3.setP b3.next_player p') b3.next_player).can_play_skull = true := by
          rw [hpAt4]; exact hA3
        refine ⟨hlen4, hcal, hcpl, hhb, h3',
          Or.inr (Or.inr (Or.inl ⟨rfl, ?_, hA1', hA2', hA3'⟩))⟩
        show mv = (if (pAt (b3.setP b3.next_player p') b3.next_player).can_play_flower then
            [LoseCardAction Card.FLOWER, LoseCardAction Card.SKULL]
          else [LoseCardAction Card.SKULL])
        rw [hpAt4]
        exact hmv
    · -- bet delivered
      have hmv : mv = [PassAction] := Option.some.inj hq
      refine INV_intro _ hcore4
        ⟨fun hc => absurd ⟨hcal, hcpl⟩ hc, fun _ _ hc => absurd h2 hc⟩ ?_
        (fun hbh => absurd (h2.symm.trans hbh) (by simp)) (fun h hbh => ?_)
      · show mv ≠ []
        rw [hmv]; simp
      · have hh : b3.next_player = h := Option.some.inj (h2.symm.trans hbh)
        subst hh
        have hlen4 : b3.next_player < (b3.setP b3.next_player p').players.length := by
          rw [length_setP]; exact hnlt
        exact ⟨hlen4, hcal, hcpl, hhb, h3', Or.inr (Or.inr (Or.inr ⟨rfl, hmv⟩))⟩
    · exact absurd hq (by simp)
  | none =>
    have hRS : b3.revealStage =
        (revealListMoves (b3.setP b3.next_player p'), b3.setP b3.next_player p') := by
      unfold Board.revealStage
      rw [hRW]
      rfl
    rw [hRS]
    rcases hcase with ⟨hq, -⟩ | ⟨hq, -⟩ | ⟨-, hC1, hC2, hC3, hC4, hC5⟩
    · exact absurd hq (by simp)
    · exact absurd hq (by simp)
    · -- exhausted: opponent-reveal options
      have hS4 := nbr_setP b3 b3.next_player p' hnlt
      have hR4 := shown_setP b3 b3.next_player p' hnlt
      rw [hC1] at hS4
      -- counting facts
      have hcount : ((b3.setP b3.next_player p').cards_shown : Int) < b3.highest_bet ∧
          (b3.highest_bet ≤ (((b3.setP b3.next_player p').nbr_cards_on_board +
            (b3.setP b3.next_player p').cards_shown : Nat) : Int)) ∧
          p'.cards_revealed ≠ [] := by
        rcases hdisj with ⟨hsh0, hst, hle⟩ | ⟨hs, hr, hlt3, hle3⟩
        · have hrev3 : (pAt b3 b3.next_player).cards_revealed.length = 0 := by
            have := rev_le_shown b3 b3.next_player hnlt
            omega
          have hmono : (p'.cards_revealed.length : Int) < b3.highest_bet := by
            refine hC5 ?_
            rw [nextP_eq_pAt] at *
            rw [hrev3]
            push_cast
            omega
          have hstlen : 1 ≤ (pAt b3 b3.next_player).cards_stack.length :=
            Nat.one_le_iff_ne_zero.mpr (fun hz => hst (List.length_eq_zero.mp hz))
          rw [nextP_eq_pAt] at hC4
          refine ⟨?_, ?_, ?_⟩
          · have : (b3.setP b3.next_player p').cards_shown = p'.cards_revealed.length := by
              omega
            rw [this]
            exact hmono
          · push_cast
            push_cast at hle
            omega
          · intro hcon
            rw [hcon] at hC4
            simp at hC4
            omega
        · rw [nextP_eq_pAt] at hC4
          rw [hs] at hC4
          simp only [List.length_nil, Nat.add_zero] at hC4
          refine ⟨?_, ?_, ?_⟩
          · have : (b3.setP b3.next_player p').cards_shown = b3.cards_shown := by omega
            rw [this]
            exact hlt3
          · have e1 : (b3.setP b3.next_player p').cards_shown = b3.cards_shown := by omega
            have e2 : (b3.setP b3.next_player p').nbr_cards_on_board =
                b3.nbr_cards_on_board := by
              rw [hs] at hS4
              simp at hS4
              omega
            rw [e1, e2]
            exact hle3
          · intro hcon
            rw [hcon] at hC4
            simp at hC4
            exact hr (List.length_eq_zero.mp hC4.symm)
      obtain ⟨hcnt1, hcnt2, hrevne⟩ := hcount
      have hS4pos : 1 ≤ (b3.setP b3.next_player p').nbr_cards_on_board := by
        have h1 := hcnt1
        have h2' := hcnt2
        push_cast at h1 h2'
        omega
      have hS4pos' : 1 ≤ (((b3.setP b3.next_player p').players.map
          (fun q => q.cards_stack.length)).sum) := hS4pos
      obtain ⟨i, hi, histack⟩ := sum_map_pos (fun q => q.cards_stack.length) default
        (b3.setP b3.next_player p').players hS4pos'
      have hine : i ≠ b3.next_player := by
        intro he
        rw [he] at histack
        have : (b3.setP b3.next_player p').players.getD b3.next_player default = p' := hpAt4
        rw [this, hC1] at histack
        simp at histack
      have hlmne : revealListMoves (b3.setP b3.next_player p') ≠ [] := by
        refine revealListMoves_ne_nil _ i hi ?_ ?_
        · show i ≠ (b3.setP b3.next_player p').next_player
          exact hine
        · intro hcon
          have : (pAt (b3.setP b3.next_player p') i).cards_stack.length = 0 := by
            rw [hcon]; rfl
          unfold pAt at this
          omega
      refine INV_intro _ hcore4
        ⟨fun hc => absurd ⟨hcal, hcpl⟩ hc, fun _ _ hc => absurd h2 hc⟩ hlmne
        (fun hbh => absurd (h2.symm.trans hbh) (by simp)) (fun h hbh => ?_)
      have hh : b3.next_player = h := Option.some.inj (h2.symm.trans hbh)
      subst hh
      have hlen4 : b3.next_player < (b3.setP b3.next_player p').players.length := by
        rw [length_setP]; exact hnlt
      have hC1' : (pAt (b3.setP b3.next_player p') b3.next_player).cards_stack = [] := by
        rw [hpAt4]; exact hC1
      have hrevne' :
          (pAt (b3.setP b3.next_player p') b3.next_player).cards_revealed ≠ [] := by
        rw [hpAt4]; exact hrevne
      exact ⟨hlen4, hcal, hcpl, hhb, h3',
        Or.inr (Or.inl ⟨hC1', hrevne', hcnt1, hcnt2, fun _ => ⟨rfl, hlmne⟩⟩)⟩

/-! ### Re-establishing the invariant through the closing stage dispatch -/

theorem glm_estab (b3 : Board) (hcore : coreINV b3) (hpp : postPhase b3) :
    INV { (b3.get_legal_moves).2 with legal_moves := (b3.get_legal_moves).1 } := by
  by_cases h1 : b3.nextP.alive = true ∧ b3.nextP.is_playing = true
  · by_cases h2 : b3.bet_holder = some b3.next_player
    · have he : b3.get_legal_moves = b3.revealStage := by
        unfold Board.get_legal_moves
        rw [if_neg (fun hc => hc.elim (fun hx => hx h1.1) (fun hx => hx h1.2)),
          if_neg (fun hc => hc h2)]
      rw [he]
      exact estab_reveal b3 hcore hpp h1.1 h1.2 h2
    · have he : b3.get_legal_moves = (b3.betStageMoves, b3) := by
        unfold Board.get_legal_moves
        rw [if_neg (fun hc => hc.elim (fun hx => hx h1.1) (fun hx => hx h1.2)),
          if_pos h2]
      rw [he]
      exact estab_bet b3 hcore hpp h1.1 h1.2 h2
  · have he : b3.get_legal_moves = ([PassAction], b3) := by
      unfold Board.get_legal_moves
      rw [if_pos (not_and_or.mp h1)]
    rw [he]
    exact estab_dead b3 hcore hpp h1

theorem round_over_all (b : Board) (h : b.is_round_over = true) :
    ∀ p ∈ b.players, p.is_playing = false := by
  intro p hp
  unfold Board.is_round_over at h
  rw [decide_eq_true_eq] at h
  rw [Bool.eq_false_iff]
  intro hc
  exact h (List.any_eq_true.mpr ⟨p, hp, hc⟩)

theorem round_over_of_all (b : Board) (h : ∀ p ∈ b.players, p.is_playing = false) :
    b.is_round_over = true := by
  unfold Board.is_round_over
  rw [decide_eq_true_eq]
  intro hc
  obtain ⟨p, hp, hpl⟩ := List.any_eq_true.mp hc
  rw [h p hp] at hpl
  exact absurd hpl (by simp)

theorem round_over_false (b : Board) (i : Nat) (hi : i < b.players.length)
    (hp : (pAt b i).is_playing = true) : b.is_round_over = false := by
  unfold Board.is_round_over
  rw [decide_eq_false_iff_not, not_not]
  exact List.any_eq_true.mpr ⟨pAt b i, pAt_mem b i hi, hp⟩

theorem playing_of_not_over (b : Board) (h : b.is_round_over = false) :
    ∃ i, i < b.players.length ∧ (pAt b i).is_playing = true := by
  unfold Board.is_round_over at h
  rw [decide_eq_false_iff_not, not_not] at h
  obtain ⟨p, hp, hpl⟩ := List.any_eq_true.mp h
  obtain ⟨i, hi, hpe⟩ := mem_pAt b p hp
  rw [← hpe] at hpl
  exact ⟨i, hi, hpl⟩

theorem collect_alive_hand (p : Player) (h : p.collect_cards.alive = true) :
    p.collect_cards.cards_hand ≠ [] := by
  intro hc
  have he : p.collect_cards.cards_hand
      = p.cards_hand ++ p.cards_stack ++ p.cards_revealed := rfl
  rw [he] at hc
  have halive : p.collect_cards.alive
      = (if (p.cards_hand ++ p.cards_stack ++ p.cards_revealed).length = 0
         then false else p.alive) := rfl
  rw [halive, hc] at h
  simp at h

theorem srF_name (p : Player) : (srF p).name = p.name := by
  unfold srF
  split_ifs <;> rfl

theorem srF_spec (p : Player) (hOKp : cardsOK p) (hde : deadEmpty p)
    (hpl : p.is_playing = false) :
    (srF p).cards_stack = [] ∧ (srF p).cards_revealed = [] ∧ cardsOK (srF p) ∧
    ((srF p).is_playing = true → (srF p).alive = true) ∧
    ((srF p).is_playing = true → (srF p).cards_hand ≠ []) ∧ deadEmpty (srF p) := by
  have hcs := collect_spec p
  unfold srF
  by_cases ha : p.collect_cards.alive = true
  · rw [if_pos ha]
    refine ⟨hcs.2.1, hcs.2.2.1, cardsOK_collect p hOKp, fun _ => ha,
      fun _ => collect_alive_hand p ha, ?_⟩
    intro hfc
    exact absurd (ha.symm.trans hfc) (by simp)
  · rw [if_neg ha]
    have hpl' : p.collect_cards.is_playing = false := by
      rw [hcs.2.2.2.2.2.1]; exact hpl
    refine ⟨hcs.2.1, hcs.2.2.1, cardsOK_collect p hOKp, ?_, ?_, ?_⟩
    · intro hc; rw [hpl'] at hc; exact absurd hc (by simp)
    · intro hc; rw [hpl'] at hc; exact absurd hc (by simp)
    · intro hfc
      refine ⟨?_, hcs.2.1, hcs.2.2.1⟩
      have halive : p.collect_cards.alive
          = (if (p.cards_hand ++ p.cards_stack ++ p.cards_revealed).length = 0
             then false else p.alive) := rfl
      have hhand : p.collect_cards.cards_hand
          = p.cards_hand ++ p.cards_stack ++ p.cards_revealed := rfl
      by_cases hlen : (p.cards_hand ++ p.cards_stack ++ p.cards_revealed).length = 0
      · rw [hhand]
        exact List.length_eq_zero.mp hlen
      · rw [halive, if_neg hlen] at ha
        have hpa : p.alive = false := Bool.eq_false_iff.mpr ha
        obtain ⟨e1, e2, e3⟩ := hde hpa
        rw [hhand, e1, e2, e3]
        rfl

theorem start_round_eq (b : Board) :
    b.start_round =
      { b with
        players :=
          match b.bet_holder with
          | some j => (b.players.map srF).drop j ++ (b.players.map srF).take j
          | none => b.players.map srF
        next_player := 0
        bet_holder := none
        highest_bet := 0 } := rfl

theorem startRound_estab (b2 : Board)
    (hn0 : 0 < b2.players.length)
    (hnd : (b2.players.map (·.name)).Nodup)
    (hOK : ∀ p ∈ b2.players, cardsOK p)
    (hDE : ∀ p ∈ b2.players, deadEmpty p)
    (hRO : b2.is_round_over = true) :
    coreINV b2.start_round ∧ postPhase b2.start_round := by
  have hall := round_over_all b2 hRO
  have hLpr : ∀ p ∈ b2.players.map srF,
      p.cards_stack = [] ∧ p.cards_revealed = [] ∧ cardsOK p ∧
      (p.is_playing = true → p.alive = true) ∧
      (p.is_playing = true → p.cards_hand ≠ []) ∧ deadEmpty p := by
    intro p hp
    rw [List.mem_map] at hp
    obtain ⟨q, hq, rfl⟩ := hp
    exact srF_spec q (hOK q hq) (hDE q hq) (hall q hq)
  have hLnames : (b2.players.map srF).map (fun x => x.name)
      = b2.players.map (fun x => x.name) := by
    rw [List.map_map]
    exact List.map_congr_left (fun q _ => srF_name q)
  have hperm : (b2.start_round).players.Perm (b2.players.map srF) := by
    rw [start_round_eq]
    show (match b2.bet_holder with
      | some j => (b2.players.map srF).drop j ++ (b2.players.map srF).take j
      | none => b2.players.map srF).Perm (b2.players.map srF)
    cases b2.bet_holder with
    | none => exact List.Perm.refl _
    | some j =>
      exact List.Perm.trans List.perm_append_comm (by rw [List.take_append_drop])
  have hmem3 : ∀ p ∈ (b2.start_round).players,
      p.cards_stack = [] ∧ p.cards_revealed = [] ∧ cardsOK p ∧
      (p.is_playing = true → p.alive = true) ∧
      (p.is_playing = true → p.cards_hand ≠ []) ∧ deadEmpty p :=
    fun p hp => hLpr p (hperm.mem_iff.mp hp)
  have hlen3 : (b2.start_round).players.length = b2.players.length := by
    rw [hperm.length_eq, List.length_map]
  have hnd3 : ((b2.start_round).players.map (fun x => x.name)).Nodup := by
    have hp2 := hperm.map (fun x => x.name)
    rw [hLnames] at hp2
    exact (hp2.nodup_iff).mpr hnd
  have hnext3 : (b2.start_round).next_player = 0 := by rw [start_round_eq]
  have hcore : coreINV b2.start_round := by
    refine ⟨by rw [hlen3]; exact hn0, by rw [hnext3, hlen3]; exact hn0, hnd3,
      fun p hp => (hmem3 p hp).2.2.1, fun p hp => (hmem3 p hp).2.2.2.1,
      fun p hp => (hmem3 p hp).2.2.2.2.2⟩
  refine ⟨hcore, ?_⟩
  have hbh3 : (b2.start_round).bet_holder = none := by rw [start_round_eq]
  have hsh : (b2.start_round).cards_shown = 0 := by
    unfold Board.cards_shown
    apply List.sum_eq_zero
    intro x hx
    rw [List.mem_map] at hx
    obtain ⟨p, hp, hpe⟩ := hx
    rw [← hpe, (hmem3 p hp).2.1]
    rfl
  have hhb3 : (b2.start_round).highest_bet = 0 := by rw [start_round_eq]
  have hw : wInv b2.start_round := by
    intro j hj hpj hhj
    exact absurd hhj ((hmem3 _ (getD_mem _ j default hj)).2.2.2.2.1 hpj)
  unfold postPhase
  rw [hbh3]
  exact ⟨hhb3, hsh, hw⟩

theorem next_setP (b : Board) (i : Nat) (p : Player) :
    (b.setP i p).next_player = b.next_player := rfl

theorem shown_setP_eq (b : Board) (i : Nat) (p : Player) (hi : i < b.players.length)
    (h : p.cards_revealed.length = (pAt b i).cards_revealed.length) :
    (b.setP i p).cards_shown = b.cards_shown := by
  have := shown_setP b i p hi
  omega

theorem nbr_setP_eq (b : Board) (i : Nat) (p : Player) (hi : i < b.players.length)
    (h : p.cards_stack.length = (pAt b i).cards_stack.length) :
    (b.setP i p).nbr_cards_on_board = b.nbr_cards_on_board := by
  have := nbr_setP b i p hi
  omega

theorem coreINV_setP (b : Board) (i : Nat) (p : Player) (hi : i < b.players.length)
    (hcore : coreINV b) (hname : p.name = (pAt b i).name) (hOKp : cardsOK p)
    (hPAp : p.is_playing = true → p.alive = true) (hDEp : deadEmpty p) :
    coreINV (b.setP i p) := by
  obtain ⟨hn0, hlt, hnd, hOK, hPA, hDE⟩ := hcore
  refine ⟨by rw [length_setP]; exact hn0, by rw [length_setP]; exact hlt,
    by rw [names_setP b i p hi hname]; exact hnd, ?_, ?_, ?_⟩
  · intro q hq
    rcases mem_setP b.players i p q hq with h | h
    · exact hOK q h
    · rw [h]; exact hOKp
  · intro q hq
    rcases mem_setP b.players i p q hq with h | h
    · exact hPA q h
    · rw [h]; exact hPAp
  · intro q hq
    rcases mem_setP b.players i p q hq with h | h
    · exact hDE q h
    · rw [h]; exact hDEp

theorem coreINV_advance_step (b2 : Board) (hcore : coreINV b2) :
    coreINV { b2 with next_player := (b2.next_player + 1) % b2.players.length } := by
  obtain ⟨hn0, hlt, hnd, hOK, hPA, hDE⟩ := hcore
  exact ⟨hn0, Nat.mod_lt _ hn0, hnd, hOK, hPA, hDE⟩

theorem postPhase_intro (b : Board)
    (hnone : b.bet_holder = none →
      b.highest_bet = 0 ∧ b.cards_shown = 0 ∧ wInv b)
    (hsome : ∀ h, b.bet_holder = some h →
      h < b.players.length ∧ (pAt b h).alive = true ∧ (pAt b h).is_playing = true ∧
      1 ≤ b.highest_bet ∧ hInv3 b h ∧
      ((b.cards_shown = 0 ∧ (pAt b h).cards_stack ≠ [] ∧
          (b.highest_bet : Int) ≤ (b.nbr_cards_on_board : Int)) ∨
       ((pAt b h).cards_stack = [] ∧ (pAt b h).cards_revealed ≠ [] ∧
          ((b.cards_shown : Int) < b.highest_bet) ∧
          (b.highest_bet ≤ ((b.nbr_cards_on_board + b.cards_shown : Nat) : Int))))) :
    postPhase b := by
  unfold postPhase
  cases hbh : b.bet_holder with
  | none => exact hnone hbh
  | some h => exact hsome h hbh

theorem wInv_advance (b2 : Board) (hnlt : b2.next_player < b2.players.length)
    (hst : (pAt b2 b2.next_player).cards_stack ≠ [] ∨
      (pAt b2 b2.next_player).is_playing = false)
    (hprev : ∀ j, j < b2.players.length → j ≠ b2.next_player →
      (pAt b2 j).is_playing = true → (pAt b2 j).cards_hand = [] →
      ∀ i, i < b2.players.length → i ≠ b2.next_player →
      (pAt b2 i).is_playing = true → (pAt b2 i).cards_stack = [] →
      relIdx b2.players.length b2.next_player i <
        relIdx b2.players.length b2.next_player j) :
    wInv { b2 with next_player := (b2.next_player + 1) % b2.players.length } := by
  intro j hj hpj hhj i hi hpi hsi
  have hj' : j < b2.players.length := hj
  have hi' : i < b2.players.length := hi
  have hpj' : (pAt b2 j).is_playing = true := hpj
  have hhj' : (pAt b2 j).cards_hand = [] := hhj
  have hpi' : (pAt b2 i).is_playing = true := hpi
  have hsi' : (pAt b2 i).cards_stack = [] := hsi
  show relIdx b2.players.length ((b2.next_player + 1) % b2.players.length) i <
    relIdx b2.players.length ((b2.next_player + 1) % b2.players.length) j
  by_cases hie : i = b2.next_player
  · rcases hst with hst | hst
    · rw [hie] at hsi'; exact absurd hsi' hst
    · rw [hie] at hpi'; rw [hpi'] at hst; exact absurd hst (by simp)
  · have s1 := relIdx_shift b2.players.length b2.next_player i hnlt hi' hie
    have l1 := relIdx_lt_n b2.players.length b2.next_player i hnlt hi'
    by_cases hje : j = b2.next_player
    · subst hje
      have s2 := relIdx_shift_self b2.players.length b2.next_player hnlt (by omega)
      omega
    · have s2 := relIdx_shift b2.players.length b2.next_player j hnlt hj' hje
      have hlt2 := hprev j hj' hje hpj' hhj' i hi' hie hpi' hsi'
      omega

theorem hInv3_advance (b2 : Board) (h : Nat) (hnlt : b2.next_player < b2.players.length)
    (hh : h < b2.players.length) (hhne : h ≠ b2.next_player)
    (hyp : ∀ i, i < b2.players.length → i ≠ h → (pAt b2 i).is_playing = true →
      i ≠ b2.next_player ∧ relIdx b2.players.length b2.next_player i <
        relIdx b2.players.length b2.next_player h) :
    hInv3 { b2 with next_player := (b2.next_player + 1) % b2.players.length } h := by
  intro i hi hne hpi
  have hi' : i < b2.players.length := hi
  have hpi' : (pAt b2 i).is_playing = true := hpi
  obtain ⟨hine, hlt2⟩ := hyp i hi' hne hpi'
  show relIdx b2.players.length ((b2.next_player + 1) % b2.players.length) i <
    relIdx b2.players.length ((b2.next_player + 1) % b2.players.length) h
  have s1 := relIdx_shift b2.players.length b2.next_player i hnlt hi' hine
  have s2 := relIdx_shift b2.players.length b2.next_player h hnlt hh hhne
  omega

theorem hInv3_advance_self (b2 : Board) (hnlt : b2.next_player < b2.players.length) :
    hInv3 { b2 with next_player := (b2.next_player + 1) % b2.players.length }
      b2.next_player := by
  intro i hi hne hpi
  have hi' : i < b2.players.length := hi
  have hne' : i ≠ b2.next_player := hne
  show relIdx b2.players.length ((b2.next_player + 1) % b2.players.length) i <
    relIdx b2.players.length ((b2.next_player + 1) % b2.players.length) b2.next_player
  have s1 := relIdx_shift b2.players.length b2.next_player i hnlt hi' hne'
  have s2 := relIdx_shift_self b2.players.length b2.next_player hnlt (by omega)
  have l1 := relIdx_lt_n b2.players.length b2.next_player i hnlt hi'
  omega

/-- Processing `Pass`: the seat to move stops playing; the invariant data
survives both the round restart and the plain hand-off. -/
theorem step_pass (b : Board) (hINV : INV b) :
    coreINV (Board.advance (b.setP b.next_player { b.nextP with is_playing := false })) ∧
    postPhase (Board.advance (b.setP b.next_player { b.nextP with is_playing := false })) := by
  obtain ⟨⟨hn0, hnlt, hnd, hOK, hPA, hDE⟩, hcache, hne, hphase⟩ := hINV
  have hmemN : b.nextP ∈ b.players := pAt_mem b b.next_player hnlt
  have hcore2 : coreINV (b.setP b.next_player { b.nextP with is_playing := false }) := by
    refine coreINV_setP b b.next_player _ hnlt ⟨hn0, hnlt, hnd, hOK, hPA, hDE⟩ rfl ?_ ?_ ?_
    · exact hOK b.nextP hmemN
    · intro hc; exact absurd hc Bool.false_ne_true
    · intro hfc; exact hDE b.nextP hmemN hfc
  unfold Board.advance
  by_cases hro : (b.setP b.next_player { b.nextP with is_playing := false }).is_round_over = true
  · rw [if_pos hro]
    obtain ⟨c1, c2, c3, c4, c5, c6⟩ := hcore2
    exact startRound_estab _ c1 c3 c4 c6 hro
  · rw [if_neg hro]
    have hroF : (b.setP b.next_player
        { b.nextP with is_playing := false }).is_round_over = false :=
      Bool.eq_false_iff.mpr hro
    refine ⟨coreINV_advance_step _ hcore2, ?_⟩
    have hq : (pAt (b.setP b.next_player { b.nextP with is_playing := false })
        b.next_player).is_playing = false := by
      rw [pAt_setP_self b _ _ hnlt]
    have hlen2 : (b.setP b.next_player
        { b.nextP with is_playing := false }).players.length = b.players.length :=
      length_setP b _ _
    have hnlt2 : (b.setP b.next_player { b.nextP with is_playing := false }).next_player <
        (b.setP b.next_player { b.nextP with is_playing := false }).players.length := by
      rw [next_setP, hlen2]; exact hnlt
    refine postPhase_intro _ ?_ ?_
    · intro hbh
      have hbh' : b.bet_holder = none := hbh
      rw [hbh'] at hphase
      obtain ⟨hb0, hsh0, hw⟩ := hphase
      refine ⟨hb0, ?_, ?_⟩
      · show (b.setP b.next_player { b.nextP with is_playing := false }).cards_shown = 0
        rw [shown_setP_eq b b.next_player { b.nextP with is_playing := false } hnlt rfl]
        exact hsh0
      · refine wInv_advance _ hnlt2 (Or.inr hq) ?_
        intro j hj hjne hpj hhj i hi hine hpi hsi
        rw [hlen2] at hj hi
        rw [next_setP] at hjne hine
        rw [pAt_setP_ne b _ j _ (fun he => hjne he.symm)] at hpj hhj
        rw [pAt_setP_ne b _ i _ (fun he => hine he.symm)] at hpi hsi
        rw [hlen2, next_setP]
        exact hw j hj hpj hhj i hi hpi hsi
    · intro h hbh
      have hbh' : b.bet_holder = some h := hbh
      rw [hbh'] at hphase
      obtain ⟨hlt, halh, hplh, hhb, h3, hdisj⟩ := hphase
      have hhne : h ≠ b.next_player := by
        intro he
        obtain ⟨i, hi, hpi⟩ := playing_of_not_over _ hroF
        rw [hlen2] at hi
        by_cases hie : i = b.next_player
        · rw [hie] at hpi
          rw [hpi] at hq
          exact absurd hq (by simp)
        · rw [pAt_setP_ne b _ i _ (fun hx => hie hx.symm)] at hpi
          have hrlt := h3 i hi (fun hx => hie (hx.trans he)) hpi
          rw [he, relIdx_self_eq] at hrlt
          omega
      have hpne : pAt (b.setP b.next_player { b.nextP with is_playing := false }) h
          = pAt b h := pAt_setP_ne b _ h _ (fun he => hhne he.symm)
      refine ⟨?_, ?_, ?_, hhb, ?_, ?_⟩
      · show h < (b.setP b.next_player { b.nextP with is_playing := false }).players.length
        rw [hlen2]; exact hlt
      · show (pAt (b.setP b.next_player { b.nextP with is_playing := false }) h).alive = true
        rw [hpne]; exact halh
      · show (pAt (b.setP b.next_player
          { b.nextP with is_playing := false }) h).is_playing = true
        rw [hpne]; exact hplh
      · refine hInv3_advance _ h hnlt2 (by rw [hlen2]; exact hlt)
          (by rw [next_setP]; exact hhne) ?_
        intro i hi hine hpi
        rw [hlen2] at hi
        rw [next_setP]
        by_cases hie : i = b.next_player
        · rw [hie] at hpi
          rw [hpi] at hq
          exact absurd hq (by simp)
        · rw [pAt_setP_ne b _ i _ (fun hx => hie hx.symm)] at hpi
          refine ⟨hie, ?_⟩
          rw [hlen2]
          exact h3 i hi hine hpi
      · rcases hdisj with hpre | hmid | hsk | hpt
        · obtain ⟨p1, p2, p3, _⟩ := hpre
          refine Or.inl ⟨?_, ?_, ?_⟩
          · show (b.setP b.next_player
              { b.nextP with is_playing := false }).cards_shown = 0
            rw [shown_setP_eq b b.next_player { b.nextP with is_playing := false } hnlt rfl]; exact p1
          · show (pAt (b.setP b.next_player
              { b.nextP with is_playing := false }) h).cards_stack ≠ []
            rw [hpne]; exact p2
          · show ((b.setP b.next_player
                { b.nextP with is_playing := false }).highest_bet : Int) ≤
              ((b.setP b.next_player
                { b.nextP with is_playing := false }).nbr_cards_on_board : Int)
            rw [nbr_setP_eq b b.next_player { b.nextP with is_playing := false } hnlt rfl]
            exact p3
        · obtain ⟨m1, m2, m3, m4, _⟩ := hmid
          refine Or.inr ⟨?_, ?_, ?_, ?_⟩
          · show (pAt (b.setP b.next_player
              { b.nextP with is_playing := false }) h).cards_stack = []
            rw [hpne]; exact m1
          · show (pAt (b.setP b.next_player
              { b.nextP with is_playing := false }) h).cards_revealed ≠ []
            rw [hpne]; exact m2
          · show (((b.setP b.next_player
                { b.nextP with is_playing := false }).cards_shown : Int) <
              (b.setP b.next_player { b.nextP with is_playing := false }).highest_bet)
            rw [shown_setP_eq b b.next_player { b.nextP with is_playing := false } hnlt rfl]
            exact m3
          · show ((b.setP b.next_player
                { b.nextP with is_playing := false }).highest_bet ≤
              (((b.setP b.next_player
                  { b.nextP with is_playing := false }).nbr_cards_on_board +
                (b.setP b.next_player
                  { b.nextP with is_playing := false }).cards_shown : Nat) : Int))
            rw [shown_setP_eq b b.next_player { b.nextP with is_playing := false } hnlt rfl, nbr_setP_eq b b.next_player { b.nextP with is_playing := false } hnlt rfl]
            exact m4
        · exact absurd hsk.1.symm hhne
        · exact absurd hpt.1.symm hhne

theorem not_true_of_false {x : Bool} (h : x = false) : ¬(x = true) := by
  rw [h]; simp

theorem cardsOK_play (p : Player) (c : Card) (hOKp : cardsOK p)
    (hc : c = Card.FLOWER ∨ c = Card.SKULL) :
    cardsOK { p with cards_hand := p.cards_hand.erase c,
                     cards_stack := p.cards_stack ++ [c] } := by
  obtain ⟨h1, h2, h3⟩ := hOKp
  refine ⟨?_, ?_, h3⟩
  · intro d hd
    exact h1 d (List.mem_of_mem_erase hd)
  · intro d hd
    rcases List.mem_append.mp hd with hd | hd
    · exact h2 d hd
    · rw [List.mem_singleton.mp hd]; exact hc

/-- Processing a card commit while no bet exists: the seat to move keeps
playing, its stack becomes non-empty, and the no-bet window invariant
shifts with the turn. -/
theorem step_commit (b : Board) (hINV : INV b) (hbh0 : b.bet_holder = none)
    (q : Player)
    (hqname : q.name = b.nextP.name) (hqpl : q.is_playing = true)
    (hqal : q.alive = true) (hqOK : cardsOK q)
    (hqst : q.cards_stack ≠ [])
    (hqrev : q.cards_revealed = b.nextP.cards_revealed) :
    coreINV (Board.advance (b.setP b.next_player q)) ∧
    postPhase (Board.advance (b.setP b.next_player q)) := by
  obtain ⟨⟨hn0, hnlt, hnd, hOK, hPA, hDE⟩, hcache, hne, hphase⟩ := hINV
  rw [hbh0] at hphase
  obtain ⟨hb0, hsh0, hw⟩ := hphase
  have hcore2 : coreINV (b.setP b.next_player q) :=
    coreINV_setP b b.next_player q hnlt ⟨hn0, hnlt, hnd, hOK, hPA, hDE⟩ hqname hqOK
      (fun _ => hqal) (fun hfc => absurd (hqal.symm.trans hfc) (by simp))
  have hroF : (b.setP b.next_player q).is_round_over = false := by
    refine round_over_false _ b.next_player ?_ ?_
    · rw [length_setP]; exact hnlt
    · rw [pAt_setP_self b _ q hnlt]; exact hqpl
  unfold Board.advance
  rw [if_neg (not_true_of_false hroF)]
  refine ⟨coreINV_advance_step _ hcore2, ?_⟩
  refine postPhase_intro _ ?_ ?_
  · intro _
    refine ⟨hb0, ?_, ?_⟩
    · show (b.setP b.next_player q).cards_shown = 0
      rw [shown_setP_eq b b.next_player q hnlt (by rw [hqrev]; rfl)]
      exact hsh0
    · refine wInv_advance _ (by rw [next_setP, length_setP]; exact hnlt)
        (Or.inl (by rw [next_setP, pAt_setP_self b _ q hnlt]; exact hqst)) ?_
      intro j hj hjne hpj hhj i hi hine hpi hsi
      rw [length_setP] at hj hi
      rw [next_setP] at hjne hine
      rw [pAt_setP_ne b _ j q (fun hx => hjne hx.symm)] at hpj hhj
      rw [pAt_setP_ne b _ i q (fun hx => hine hx.symm)] at hpi hsi
      rw [length_setP, next_setP]
      exact hw j hj hpj hhj i hi hpi hsi
  · intro h hbh
    have hbh' : b.bet_holder = some h := hbh
    rw [hbh0] at hbh'
    exact Option.noConfusion hbh'

/-- Processing a bet: the bettor becomes the holder, play hands off, and the
pre-reveal counting facts are established (betting was open, so every
playing seat has a committed card). -/
theorem step_bet (b : Board) (hINV : INV b) (k : Int)
    (hal : b.nextP.alive = true) (hpl : b.nextP.is_playing = true)
    (hbhne : b.bet_holder ≠ some b.next_player)
    (hk1 : b.highest_bet + 1 ≤ k) (hk2 : k ≤ (b.nbr_cards_on_board : Int))
    (hopen : b.players.any
      (fun p => p.cards_stack.length = 0 ∧ p.is_playing) = false) :
    coreINV (Board.advance
      { b with bet_holder := some b.next_player, highest_bet := k }) ∧
    postPhase (Board.advance
      { b with bet_holder := some b.next_player, highest_bet := k }) := by
  obtain ⟨⟨hn0, hnlt, hnd, hOK, hPA, hDE⟩, hcache, hne, hphase⟩ := hINV
  have hbge : (0 : Int) ≤ b.highest_bet := by
    cases hbh2 : b.bet_holder with
    | none =>
      rw [hbh2] at hphase
      have := hphase.1
      omega
    | some h0 =>
      rw [hbh2] at hphase
      have := hphase.2.2.2.1
      omega
  have hsh0 : b.cards_shown = 0 := by
    cases hbh2 : b.bet_holder with
    | none =>
      rw [hbh2] at hphase
      exact hphase.2.1
    | some h0 =>
      rw [hbh2] at hphase
      obtain ⟨hlt0, hal0, hpl0, hb0, h30, hdisj0⟩ := hphase
      rcases hdisj0 with hpre | hmid | hsk | hpt
      · exact hpre.1
      · have hno := List.any_eq_false.mp hopen (pAt b h0) (pAt_mem b h0 hlt0)
        simp only [decide_eq_true_eq, not_and] at hno
        exact absurd hpl0 (hno (by rw [hmid.1]; rfl))
      · rw [hbh2, ← hsk.1] at hbhne
        exact absurd rfl hbhne
      · rw [hbh2, ← hpt.1] at hbhne
        exact absurd rfl hbhne
  have hstn : (pAt b b.next_player).cards_stack ≠ [] := by
    have hno := List.any_eq_false.mp hopen (pAt b b.next_player) (pAt_mem b _ hnlt)
    simp only [decide_eq_true_eq, not_and] at hno
    intro hcon
    exact (hno (by rw [hcon]; rfl)) hpl
  have hcore2 : coreINV { b with bet_holder := some b.next_player, highest_bet := k } :=
    ⟨hn0, hnlt, hnd, hOK, hPA, hDE⟩
  have hroF := round_over_false
    { b with bet_holder := some b.next_player, highest_bet := k } b.next_player hnlt hpl
  unfold Board.advance
  rw [if_neg (not_true_of_false hroF)]
  refine ⟨coreINV_advance_step _ hcore2, ?_⟩
  refine postPhase_intro _ ?_ ?_
  · intro hbh
    exact Option.noConfusion hbh
  · intro h hbh
    have hbh' : (some b.next_player : Option Nat) = some h := hbh
    have hh : h = b.next_player := (Option.some.inj hbh').symm
    subst hh
    refine ⟨hnlt, hal, hpl, ?_, ?_, Or.inl ⟨hsh0, hstn, hk2⟩⟩
    · show (1 : Int) ≤ k
      omega
    exact hInv3_advance_self { b with bet_holder := some b.next_player, highest_bet := k }
      hnlt

theorem range_split_at (n t : Nat) (ht : t < n) :
    List.range n = List.range' 0 t ++ t :: List.range' (t + 1) (n - t - 1) := by
  rw [List.range_eq_range']
  have h1 := List.range'_append 0 t (n - t) 1
  simp only [Nat.zero_add, Nat.one_mul] at h1
  rw [show n - t + t = n from by omega] at h1
  have h2 : List.range' t (n - t) = t :: List.range' (t + 1) (n - t - 1) := by
    have h3 := List.range'_succ t (n - t - 1) 1
    rw [show n - t - 1 + 1 = n - t from by omega] at h3
    exact h3
  rw [← h1, h2]

theorem name_inj (b : Board) (hnd : (b.players.map (fun x => x.name)).Nodup)
    (i j : Nat) (hi : i < b.players.length) (hj : j < b.players.length)
    (hne : i ≠ j) : (pAt b i).name ≠ (pAt b j).name := by
  intro he
  have hinj := List.nodup_iff_injective_get.mp hnd
  have hmi : i < (b.players.map (fun x => x.name)).length := by
    rw [List.length_map]; exact hi
  have hmj : j < (b.players.map (fun x => x.name)).length := by
    rw [List.length_map]; exact hj
  have hgete : (b.players.map (fun x => x.name)).get ⟨i, hmi⟩
      = (b.players.map (fun x => x.name)).get ⟨j, hmj⟩ := by
    rw [List.get_eq_getElem, List.get_eq_getElem, List.getElem_map, List.getElem_map,
      ← pAt_eq_getElem b i hi, ← pAt_eq_getElem b j hj]
    exact he
  have hij := hinj hgete
  rw [Fin.mk.injEq] at hij
  exact hne hij

theorem foldlM_no_match (actor : Nat) (target : String) (rnd : Nat) :
    ∀ (l : List Nat) (b : Board), (∀ i ∈ l, (pAt b i).name ≠ target) →
    l.foldlM (Board.revealActAt actor target rnd) b = .ok b := by
  intro l
  induction l with
  | nil => intro b _; rfl
  | cons x xs ih =>
    intro b h
    rw [List.foldlM_cons]
    have hx : Board.revealActAt actor target rnd b x = .ok b := by
      unfold Board.revealActAt
      have hx' : ¬(b.players.getD x default).name = target :=
        h x (List.mem_cons_self x xs)
      rw [if_neg hx']
    rw [hx]
    show xs.foldlM (Board.revealActAt actor target rnd) b = .ok b
    exact ih b (fun i hi => h i (List.mem_cons_of_mem x hi))

theorem fold_range_single (b : Board) (actor : Nat) (target : String) (rnd : Nat)
    (t : Nat) (ht : t < b.players.length)
    (huniq : ∀ i, i < b.players.length → i ≠ t → (pAt b i).name ≠ target)
    (b2 : Board) (hstep : Board.revealActAt actor target rnd b t = .ok b2)
    (hnames2 : ∀ i, i < b.players.length → (pAt b2 i).name = (pAt b i).name) :
    (List.range b.players.length).foldlM (Board.revealActAt actor target rnd) b
      = .ok b2 := by
  rw [range_split_at b.players.length t ht, List.foldlM_append]
  have hpre : (List.range' 0 t).foldlM (Board.revealActAt actor target rnd) b
      = .ok b := by
    refine foldlM_no_match actor target rnd _ b ?_
    intro i hi
    rw [List.mem_range'_1] at hi
    exact huniq i (by omega) (by omega)
  rw [hpre]
  show (t :: List.range' (t + 1) (b.players.length - t - 1)).foldlM
    (Board.revealActAt actor target rnd) b = .ok b2
  rw [List.foldlM_cons, hstep]
  show (List.range' (t + 1) (b.players.length - t - 1)).foldlM
    (Board.revealActAt actor target rnd) b2 = .ok b2
  refine foldlM_no_match actor target rnd _ b2 ?_
  intro i hi
  rw [List.mem_range'_1] at hi
  rw [hnames2 i (by omega)]
  exact huniq i (by omega) (by omega)

/-- When nobody is playing any more, the hand-off restarts the round and the
invariant data is re-established. -/
theorem step_halt (b2 : Board) (hcore : coreINV b2)
    (hall : ∀ i, i < b2.players.length → (pAt b2 i).is_playing = false) :
    coreINV (Board.advance b2) ∧ postPhase (Board.advance b2) := by
  have hallm : ∀ p ∈ b2.players, p.is_playing = false := by
    intro p hp
    obtain ⟨i, hi, hpe⟩ := mem_pAt b2 p hp
    rw [← hpe]
    exact hall i hi
  have hro : b2.is_round_over = true := round_over_of_all b2 hallm
  unfold Board.advance
  rw [if_pos hro]
  obtain ⟨c1, c2, c3, c4, c5, c6⟩ := hcore
  exact startRound_estab _ c1 c3 c4 c6 hro

/-- Processing a forfeit (`LoseCard`): the holder collects, discards, maybe
dies, stops playing; with the holder gone the round is over. -/
theorem step_lose (b : Board) (hINV : INV b)
    (hal : b.nextP.alive = true)
    (hbh : b.bet_holder = some b.next_player) (c : Card) :
    coreINV (Board.advance (b.setP b.next_player
      { b.nextP.collect_cards with
        cards_hand := b.nextP.collect_cards.cards_hand.erase c
        alive := if (b.nextP.collect_cards.cards_hand.erase c).length = 0 then false
          else b.nextP.collect_cards.alive
        is_playing := false })) ∧
    postPhase (Board.advance (b.setP b.next_player
      { b.nextP.collect_cards with
        cards_hand := b.nextP.collect_cards.cards_hand.erase c
        alive := if (b.nextP.collect_cards.cards_hand.erase c).length = 0 then false
          else b.nextP.collect_cards.alive
        is_playing := false })) := by
  obtain ⟨⟨hn0, hnlt, hnd, hOK, hPA, hDE⟩, hcache, hne, hphase⟩ := hINV
  rw [hbh] at hphase
  obtain ⟨-, -, -, -, h3, -⟩ := hphase
  have hmemN : b.nextP ∈ b.players := pAt_mem b b.next_player hnlt
  have hOKc : cardsOK b.nextP.collect_cards := cardsOK_collect _ (hOK _ hmemN)
  have hOKq : cardsOK
      { b.nextP.collect_cards with
        cards_hand := b.nextP.collect_cards.cards_hand.erase c
        alive := if (b.nextP.collect_cards.cards_hand.erase c).length = 0 then false
          else b.nextP.collect_cards.alive
        is_playing := false } := by
    obtain ⟨k1, k2, k3⟩ := hOKc
    exact ⟨fun d hd => k1 d (List.mem_of_mem_erase hd), k2, k3⟩
  have hDEq : deadEmpty
      { b.nextP.collect_cards with
        cards_hand := b.nextP.collect_cards.cards_hand.erase c
        alive := if (b.nextP.collect_cards.cards_hand.erase c).length = 0 then false
          else b.nextP.collect_cards.alive
        is_playing := false } := by
    intro hfc
    by_cases hlen : (b.nextP.collect_cards.cards_hand.erase c).length = 0
    · exact ⟨List.length_eq_zero.mp hlen, (collect_spec b.nextP).2.1,
        (collect_spec b.nextP).2.2.1⟩
    · exfalso
      have hfc2 : (if (b.nextP.collect_cards.cards_hand.erase c).length = 0 then false
          else b.nextP.collect_cards.alive) = false := hfc
      rw [if_neg hlen] at hfc2
      have halive : b.nextP.collect_cards.alive
          = (if (b.nextP.cards_hand ++ b.nextP.cards_stack ++
              b.nextP.cards_revealed).length = 0
             then false else b.nextP.alive) := rfl
      rw [halive] at hfc2
      by_cases hbig : (b.nextP.cards_hand ++ b.nextP.cards_stack ++
          b.nextP.cards_revealed).length = 0
      · apply hlen
        have hch : b.nextP.collect_cards.cards_hand = [] := List.length_eq_zero.mp hbig
        rw [hch]
        rfl
      · rw [if_neg hbig] at hfc2
        exact absurd (hal.symm.trans hfc2) (by simp)
  have hcore2 : coreINV (b.setP b.next_player
      { b.nextP.collect_cards with
        cards_hand := b.nextP.collect_cards.cards_hand.erase c
        alive := if (b.nextP.collect_cards.cards_hand.erase c).length = 0 then false
          else b.nextP.collect_cards.alive
        is_playing := false }) :=
    coreINV_setP b b.next_player _ hnlt ⟨hn0, hnlt, hnd, hOK, hPA, hDE⟩
      ((collect_spec b.nextP).2.2.2.1) hOKq
      (fun hc => absurd hc Bool.false_ne_true) hDEq
  refine step_halt _ hcore2 ?_
  intro i hi
  rw [length_setP] at hi
  by_cases hie : i = b.next_player
  · rw [hie, pAt_setP_self b _ _ hnlt]
  · rw [pAt_setP_ne b _ i _ (fun hx => hie hx.symm)]
    cases hpl2 : (pAt b i).is_playing with
    | false => rfl
    | true =>
      have hrlt := h3 i hi hie hpl2
      rw [relIdx_self_eq] at hrlt
      omega

theorem revealListMoves_mem (b : Board) (a : Action) (ha : a ∈ revealListMoves b) :
    ∃ t, t < b.players.length ∧ t ≠ b.next_player ∧ (pAt b t).cards_stack ≠ [] ∧
      a = RevealCardAction (pAt b t).name := by
  unfold revealListMoves at ha
  rw [List.mem_map] at ha
  obtain ⟨pi, hpi, hae⟩ := ha
  rw [List.mem_filter] at hpi
  obtain ⟨hmem, hcond⟩ := hpi
  obtain ⟨t, q⟩ := pi
  rw [List.mem_enum_iff_getElem?] at hmem
  have ht : t < b.players.length := (List.getElem?_eq_some.mp hmem).1
  have hq : q = pAt b t := by
    have h2 := getD_eq_getElem' b.players t default ht
    rw [h2] at hmem
    exact (Option.some.inj hmem).symm
  simp only [decide_eq_true_eq] at hcond
  obtain ⟨hne, hpos⟩ := hcond
  refine ⟨t, ht, hne, ?_, ?_⟩
  · rw [← hq]
    intro hcon
    rw [hcon] at hpos
    simp at hpos
  · rw [← hae, hq]

theorem remove_card_ok (p : Player) (rnd : Nat)
    (h : p.collect_cards.cards_hand ≠ []) :
    p.remove_card rnd = .ok { p.collect_cards with
      cards_hand := p.collect_cards.cards_hand.eraseIdx
        (rnd % p.collect_cards.cards_hand.length) } := by
  unfold Player.remove_card
  have hlen : p.collect_cards.cards_hand.length > 0 := List.length_pos.mpr h
  show (if p.collect_cards.cards_hand.length > 0 then
      Except.ok { p.collect_cards with
        cards_hand := p.collect_cards.cards_hand.eraseIdx
          (rnd % p.collect_cards.cards_hand.length) }
    else Except.error PyErr.NoCardsException) = _
  rw [if_pos hlen]

theorem revealActAt_spec (b : Board) (actor t rnd : Nat)
    (c : Card) (p' : Player)
    (hrn : (b.players.getD t default).revealNext? = some (c, p')) :
    Board.revealActAt actor (b.players.getD t default).name rnd b t =
      (if c = Card.SKULL then
        (match (((b.setP t p').setP actor
            { (b.setP t p').players.getD actor default with
              is_playing := false }).players.getD actor default).remove_card rnd with
         | .ok pa => .ok (((b.setP t p').setP actor
            { (b.setP t p').players.getD actor default with
              is_playing := false }).setP actor pa)
         | .error e => .error e)
      else if ((b.setP t p').cards_shown : Int) = (b.setP t p').highest_bet then
        .ok ((b.setP t p').setP actor
          { (b.setP t p').players.getD actor default with
            is_playing := false
            points := ((b.setP t p').players.getD actor default).points + 1 })
      else .ok (b.setP t p')) := by
  unfold Board.revealActAt
  rw [if_pos rfl, hrn]

/-- Processing an opponent-stack reveal while mid-reveal: a skull forfeits
(round over), reaching the bet scores (round over), otherwise the walk goes
on with one more card shown. -/
theorem step_reveal (b : Board) (rnd : Nat) (hINV : INV b)
    (hal : b.nextP.alive = true) (hpl : b.nextP.is_playing = true)
    (hbhold : b.bet_holder = some b.next_player)
    (hmid : phaseMid b b.next_player)
    (t : Nat) (ht : t < b.players.length) (htne : t ≠ b.next_player)
    (hstne : (pAt b t).cards_stack ≠ [])
    (b2 : Board)
    (hstep : b.process_action b.next_player
      (RevealCardAction (pAt b t).name) rnd = .ok b2) :
    coreINV (Board.advance b2) ∧ postPhase (Board.advance b2) := by
  obtain ⟨⟨hn0, hnlt, hnd, hOK, hPA, hDE⟩, hcache, hne, hphase⟩ := hINV
  rw [hbhold] at hphase
  obtain ⟨-, -, -, hhb, h3, -⟩ := hphase
  obtain ⟨m1, m2, m3, m4, -⟩ := hmid
  have hnop : ∀ i, i < b.players.length → i ≠ b.next_player →
      (pAt b i).is_playing = false := by
    intro i hi hine
    cases hpl2 : (pAt b i).is_playing with
    | false => rfl
    | true =>
      have hrlt := h3 i hi hine hpl2
      rw [relIdx_self_eq] at hrlt
      omega
  obtain ⟨c, p', hrn⟩ : ∃ c p', (pAt b t).revealNext? = some (c, p') := by
    cases hq : (pAt b t).revealNext? with
    | none => exact absurd ((revealNext?_none_iff _).mp hq) hstne
    | some cp => exact ⟨cp.1, cp.2, rfl⟩
  obtain ⟨s1, s2, s3, s4, s5, s6, s7, s8⟩ := revealNext?_spec (pAt b t) c p' hrn
  have hlenst := revealNext?_length (pAt b t) c p' hrn
  obtain ⟨k1, k2, k3⟩ := hOK (pAt b t) (pAt_mem b t ht)
  have hcFS : c = Card.FLOWER ∨ c = Card.SKULL := k2 c s8
  have hOKp' : cardsOK p' := by
    refine ⟨?_, ?_, ?_⟩
    · intro d hd; rw [s1] at hd; exact k1 d hd
    · intro d hd; rw [s3] at hd; exact k2 d (List.dropLast_subset _ hd)
    · intro d hd; rw [s2] at hd
      rcases List.mem_append.mp hd with hd | hd
      · exact k3 d hd
      · rw [List.mem_singleton.mp hd]; exact k2 c s8
  have halt : (pAt b t).alive = true := by
    cases hqa : (pAt b t).alive with
    | true => rfl
    | false => exact absurd (hDE _ (pAt_mem b t ht) hqa).2.1 hstne
  have hDEp' : deadEmpty p' := by
    intro hfc
    rw [s5] at hfc
    exact absurd (halt.symm.trans hfc) (by simp)
  have hcore1 : coreINV (b.setP t p') :=
    coreINV_setP b t p' ht ⟨hn0, hnlt, hnd, hOK, hPA, hDE⟩ s4 hOKp'
      (fun hpp => by rw [s6] at hpp; rw [s5]; exact hPA _ (pAt_mem b t ht) hpp) hDEp'
  have hnames1 : ∀ i, i < b.players.length →
      (pAt (b.setP t p') i).name = (pAt b i).name := by
    intro i hi
    by_cases hit : i = t
    · rw [hit, pAt_setP_self b t p' ht, s4]
    · rw [pAt_setP_ne b t i p' (fun hx => hit hx.symm)]
  have huniq : ∀ i, i < b.players.length → i ≠ t →
      (pAt b i).name ≠ (pAt b t).name :=
    fun i hi hine => name_inj b hnd i t hi ht hine
  have hrn' : (b.players.getD t default).revealNext? = some (c, p') := hrn
  have hact := revealActAt_spec b b.next_player t rnd c p' hrn'
  have heq : (b.setP t p').players.getD b.next_player default = pAt b b.next_player :=
    pAt_setP_ne b t b.next_player p' htne
  have hstep2 : (List.range b.players.length).foldlM
      (Board.revealActAt b.next_player (pAt b t).name rnd) b = .ok b2 := hstep
  have hb'lt : b.next_player < (b.setP t p').players.length := by
    rw [length_setP]; exact hnlt
  rcases hcFS with hcF | hcS
  · -- a flower comes up
    have hcne : ¬(c = Card.SKULL) := by rw [hcF]; decide
    rw [if_neg hcne] at hact
    have hshown' : (b.setP t p').cards_shown = b.cards_shown + 1 := by
      have hss := shown_setP b t p' ht
      have hs2 : p'.cards_revealed.length = (pAt b t).cards_revealed.length + 1 := by
        rw [s2, List.length_append]
        rfl
      omega
    by_cases hq : ((b.setP t p').cards_shown : Int) = (b.setP t p').highest_bet
    · -- the bet is reached: the holder scores and stops
      rw [if_pos hq] at hact
      rw [heq] at hact
      set QB : Player := { pAt b b.next_player with
        is_playing := false
        points := (pAt b b.next_player).points + 1 } with hQB
      have hnamesP : ∀ i, i < b.players.length →
          (pAt ((b.setP t p').setP b.next_player QB) i).name = (pAt b i).name := by
        intro i hi
        by_cases hin : i = b.next_player
        · rw [hin, pAt_setP_self (b.setP t p') b.next_player QB hb'lt]
          try rw [hQB]
        · rw [pAt_setP_ne (b.setP t p') b.next_player i QB (fun hx => hin hx.symm)]
          exact hnames1 i hi
      have hact2 : Board.revealActAt b.next_player (pAt b t).name rnd b t
          = .ok ((b.setP t p').setP b.next_player QB) := hact
      have hfold := fold_range_single b b.next_player (pAt b t).name rnd t ht huniq
        _ hact2 hnamesP
      have hb2 := Except.ok.inj (hfold.symm.trans hstep2)
      subst hb2
      have hcoreP : coreINV ((b.setP t p').setP b.next_player QB) :=
        coreINV_setP (b.setP t p') b.next_player QB hb'lt hcore1
          (by rw [pAt_setP_ne b t b.next_player p' htne]; try rw [hQB])
          (hOK (pAt b b.next_player) (pAt_mem b b.next_player hnlt))
          (fun hc => absurd hc Bool.false_ne_true)
          (fun hfc => absurd (hal.symm.trans hfc) (by simp))
      refine step_halt _ hcoreP ?_
      intro i hi
      have hi2 : i < b.players.length := by
        have hx := hi
        rw [length_setP, length_setP] at hx
        exact hx
      by_cases hin : i = b.next_player
      · rw [hin, pAt_setP_self (b.setP t p') b.next_player QB hb'lt]
        try rw [hQB]
      · rw [pAt_setP_ne (b.setP t p') b.next_player i QB (fun hx => hin hx.symm)]
        by_cases hit : i = t
        · rw [hit, pAt_setP_self b t p' ht, s6]
          exact hnop t ht htne
        · rw [pAt_setP_ne b t i p' (fun hx => hit hx.symm)]
          exact hnop i hi2 hin
    · -- the walk continues
      rw [if_neg hq] at hact
      have hact2 : Board.revealActAt b.next_player (pAt b t).name rnd b t
          = .ok (b.setP t p') := hact
      have hfold := fold_range_single b b.next_player (pAt b t).name rnd t ht huniq
        _ hact2 hnames1
      have hb2 := Except.ok.inj (hfold.symm.trans hstep2)
      subst hb2
      have hroF : (b.setP t p').is_round_over = false := by
        refine round_over_false _ b.next_player hb'lt ?_
        rw [pAt_setP_ne b t b.next_player p' htne]
        exact hpl
      unfold Board.advance
      rw [if_neg (not_true_of_false hroF)]
      refine ⟨coreINV_advance_step _ hcore1, ?_⟩
      refine postPhase_intro _ ?_ ?_
      · intro hbh
        have hbh' : b.bet_holder = none := hbh
        rw [hbhold] at hbh'
        exact Option.noConfusion hbh'
      · intro h hbh2
        have hbh2' : b.bet_holder = some h := hbh2
        have hh : h = b.next_player := Option.some.inj (hbh2'.symm.trans hbhold)
        subst hh
        have hpAth : pAt (b.setP t p') b.next_player = pAt b b.next_player :=
          pAt_setP_ne b t b.next_player p' htne
        refine ⟨?_, ?_, ?_, hhb, ?_, ?_⟩
        · show b.next_player < (b.setP t p').players.length
          exact hb'lt
        · show (pAt (b.setP t p') b.next_player).alive = true
          rw [hpAth]; exact hal
        · show (pAt (b.setP t p') b.next_player).is_playing = true
          rw [hpAth]; exact hpl
        · intro i hi hne2 hpi
          exfalso
          have hi2 : i < (b.setP t p').players.length := hi
          rw [length_setP] at hi2
          have hpi2 : (pAt (b.setP t p') i).is_playing = true := hpi
          by_cases hit : i = t
          · rw [hit, pAt_setP_self b t p' ht, s6] at hpi2
            rw [hnop t ht htne] at hpi2
            exact absurd hpi2 (by simp)
          · rw [pAt_setP_ne b t i p' (fun hx => hit hx.symm)] at hpi2
            rw [hnop i hi2 hne2] at hpi2
            exact absurd hpi2 (by simp)
        · refine Or.inr ⟨?_, ?_, ?_, ?_⟩
          · show (pAt (b.setP t p') b.next_player).cards_stack = []
            rw [hpAth]; exact m1
          · show (pAt (b.setP t p') b.next_player).cards_revealed ≠ []
            rw [hpAth]; exact m2
          · have hq2 : ¬(((b.cards_shown + 1 : Nat) : Int) = b.highest_bet) := by
              intro hcon
              apply hq
              show ((b.setP t p').cards_shown : Int) = b.highest_bet
              rw [hshown']
              exact hcon
            show ((b.setP t p').cards_shown : Int) < b.highest_bet
            rw [hshown']
            omega
          · have hnbr := nbr_setP b t p' ht
            have hsum : (b.setP t p').nbr_cards_on_board + (b.setP t p').cards_shown
                = b.nbr_cards_on_board + b.cards_shown := by omega
            show b.highest_bet ≤
              (((b.setP t p').nbr_cards_on_board + (b.setP t p').cards_shown : Nat) : Int)
            rw [hsum]
            exact m4
  · -- the skull comes up: the holder is auto-skulled and forfeits a card
    rw [if_pos hcS] at hact
    rw [heq] at hact
    set QA : Player := { pAt b b.next_player with is_playing := false } with hQA
    have heq2 : ((b.setP t p').setP b.next_player QA).players.getD
        b.next_player default = QA :=
      pAt_setP_self (b.setP t p') b.next_player QA hb'lt
    rw [heq2] at hact
    have hhand : QA.collect_cards.cards_hand ≠ [] := by
      have hh : QA.collect_cards.cards_hand
          = (pAt b b.next_player).cards_hand ++ (pAt b b.next_player).cards_stack
            ++ (pAt b b.next_player).cards_revealed := by rw [hQA]; rfl
      rw [hh, m1]
      intro hcon
      simp only [List.append_nil] at hcon
      rcases List.append_eq_nil.mp hcon with ⟨-, hrev⟩
      exact m2 hrev
    rw [remove_card_ok QA rnd hhand] at hact
    set pa : Player := { QA.collect_cards with
      cards_hand := QA.collect_cards.cards_hand.eraseIdx
        (rnd % QA.collect_cards.cards_hand.length) } with hpa
    have hpaal : pa.alive = true := by
      have hcal := (collect_spec QA).2.2.2.2.2.2 hhand
      show QA.collect_cards.alive = true
      rw [hcal, hQA]
      exact hal
    have hOKpa : cardsOK pa := by
      have hOKc2 := cardsOK_collect QA (hOK (pAt b b.next_player) (pAt_mem b b.next_player hnlt))
      obtain ⟨w1, w2, w3⟩ := hOKc2
      exact ⟨fun d hd => w1 d (List.eraseIdx_subset _ _ hd), w2, w3⟩
    have hcore2 : coreINV ((b.setP t p').setP b.next_player QA) :=
      coreINV_setP (b.setP t p') b.next_player QA hb'lt hcore1
        (by rw [pAt_setP_ne b t b.next_player p' htne]; try rw [hQA])
        (hOK (pAt b b.next_player) (pAt_mem b b.next_player hnlt))
        (fun hc => absurd hc Bool.false_ne_true)
        (fun hfc => absurd (hal.symm.trans hfc) (by simp))
    have hlen3 : ((b.setP t p').setP b.next_player QA).players.length
        = b.players.length := by
      rw [length_setP, length_setP]
    have hcore3 : coreINV (((b.setP t p').setP b.next_player QA).setP
        b.next_player pa) :=
      coreINV_setP ((b.setP t p').setP b.next_player QA) b.next_player pa
        (by rw [hlen3]; exact hnlt) hcore2
        (by rw [pAt_setP_self (b.setP t p') b.next_player QA hb'lt, hpa]; rfl)
        hOKpa
        (fun hc => absurd hc Bool.false_ne_true)
        (fun hfc => absurd (hpaal.symm.trans hfc) (by simp))
    have hnamesS : ∀ i, i < b.players.length →
        (pAt (((b.setP t p').setP b.next_player QA).setP b.next_player pa) i).name
          = (pAt b i).name := by
      intro i hi
      by_cases hin : i = b.next_player
      · rw [hin, pAt_setP_self ((b.setP t p').setP b.next_player QA) b.next_player pa
          (by rw [hlen3]; exact hnlt), hpa]
        show QA.collect_cards.name = (pAt b b.next_player).name
        rw [(collect_spec QA).2.2.2.1, hQA]
      · rw [pAt_setP_ne ((b.setP t p').setP b.next_player QA) b.next_player i pa
          (fun hx => hin hx.symm),
          pAt_setP_ne (b.setP t p') b.next_player i QA (fun hx => hin hx.symm)]
        exact hnames1 i hi
    have hact2 : Board.revealActAt b.next_player (pAt b t).name rnd b t
        = .ok (((b.setP t p').setP b.next_player QA).setP b.next_player pa) := hact
    have hfold := fold_range_single b b.next_player (pAt b t).name rnd t ht huniq
      _ hact2 hnamesS
    have hb2 := Except.ok.inj (hfold.symm.trans hstep2)
    subst hb2
    refine step_halt _ hcore3 ?_
    intro i hi
    have hi2 : i < b.players.length := by
      have hx := hi
      rw [length_setP, hlen3] at hx
      exact hx
    by_cases hin : i = b.next_player
    · rw [hin, pAt_setP_self ((b.setP t p').setP b.next_player QA) b.next_player pa
        (by rw [hlen3]; exact hnlt), hpa]
      show QA.collect_cards.is_playing = false
      rw [(collect_spec QA).2.2.2.2.2.1, hQA]
    · rw [pAt_setP_ne ((b.setP t p').setP b.next_player QA) b.next_player i pa
        (fun hx => hin hx.symm),
        pAt_setP_ne (b.setP t p') b.next_player i QA (fun hx => hin hx.symm)]
      by_cases hit : i = t
      · rw [hit, pAt_setP_self b t p' ht, s6]
        exact hnop t ht htne
      · rw [pAt_setP_ne b t i p' (fun hx => hit hx.symm)]
        exact hnop i hi2 hin

theorem process_pass_spec (b : Board) (actor rnd : Nat) :
    b.process_action actor PassAction rnd =
      .ok (b.setP actor { b.players.getD actor default with is_playing := false }) := rfl

theorem process_bet_spec (b : Board) (actor : Nat) (k : Int) (rnd : Nat) :
    b.process_action actor (BetAction k) rnd =
      .ok { b with bet_holder := some actor, highest_bet := k } := rfl

theorem process_lose_spec (b : Board) (actor : Nat) (c : Card) (rnd : Nat) :
    b.process_action actor (LoseCardAction c) rnd =
      (if c ∈ (b.players.getD actor default).collect_cards.cards_hand then
        Except.ok (b.setP actor
          { (b.players.getD actor default).collect_cards with
            cards_hand := (b.players.getD actor default).collect_cards.cards_hand.erase c
            alive := if ((b.players.getD actor default).collect_cards.cards_hand.erase
                c).length = 0 then false
              else (b.players.getD actor default).collect_cards.alive
            is_playing := false })
      else Except.error PyErr.ValueError) := rfl

theorem process_flower_spec (b : Board) (actor rnd : Nat) :
    b.process_action actor (PlayCardAction Card.FLOWER) rnd =
      (match (b.players.getD actor default).play_flower with
       | .ok p => .ok (b.setP actor p)
       | .error e => .error e) := rfl

theorem process_skull_spec (b : Board) (actor rnd : Nat) :
    b.process_action actor (PlayCardAction Card.SKULL) rnd =
      (match (b.players.getD actor default).play_skull with
       | .ok p => .ok (b.setP actor p)
       | .error e => .error e) := rfl

theorem play_flower_ok (p : Player) (h : p.can_play_flower = true) :
    p.play_flower = .ok
      { p with
        cards_hand := p.cards_hand.erase Card.FLOWER
        cards_stack := p.cards_stack ++ [Card.FLOWER] } := by
  unfold Player.play_flower
  rw [if_pos h]

theorem play_skull_ok (p : Player) (h : p.can_play_skull = true) :
    p.play_skull = .ok
      { p with
        cards_hand := p.cards_hand.erase Card.SKULL
        cards_stack := p.cards_stack ++ [Card.SKULL] } := by
  unfold Player.play_skull
  rw [if_pos h]

/-- The invariant survives one successful legality-checked push step (stated
over the snapshot-extended board, whose game data coincides with the
original). -/
theorem push_core (B1 : Board) (a : Action) (rnd : Nat) (hINV : INV B1) (b' : Board)
    (hmem : a ∈ B1.legal_moves)
    (h : (match B1.process_action B1.next_player a rnd with
          | .error e => .error e
          | .ok b2 => .ok { (Board.advance b2).get_legal_moves.2 with
              legal_moves := (Board.advance b2).get_legal_moves.1 }) = Except.ok b') :
    INV b' := by
  cases hproc : B1.process_action B1.next_player a rnd with
  | error e =>
    rw [hproc] at h
    exact absurd h (by simp)
  | ok b2 =>
    rw [hproc] at h
    have hb' : b' = { (Board.advance b2).get_legal_moves.2 with
        legal_moves := (Board.advance b2).get_legal_moves.1 } := (Except.ok.inj h).symm
    subst hb'
    have hcache := hINV.2.1
    by_cases hd : B1.nextP.alive = true ∧ B1.nextP.is_playing = true
    · by_cases hbh2 : B1.bet_holder = some B1.next_player
      · -- the bet holder reveals
        have hphase := hINV.2.2.2
        rw [hbh2] at hphase
        obtain ⟨hlt, halh, hplh, hhb, h3, hdisj⟩ := hphase
        rcases hdisj with hpre | hmid | hsk | hpt
        · exact absurd rfl hpre.2.2.2
        · -- mid-reveal: the cached moves are the opponent reveals
          have hleg := (hmid.2.2.2.2) rfl
          rw [hleg.1] at hmem
          obtain ⟨t, ht, htne, hstne, hae⟩ := revealListMoves_mem B1 a hmem
          subst hae
          obtain ⟨hcore, hpp⟩ := step_reveal B1 rnd hINV hd.1 hd.2 hbh2 hmid
            t ht htne hstne b2 hproc
          exact glm_estab _ hcore hpp
        · -- auto-skulled: a forfeit is processed
          obtain ⟨hh1, hleg, hst0, hrev0, hcanS⟩ := hsk
          rw [hleg] at hmem
          have hch2 : B1.nextP.collect_cards.cards_hand
              = (pAt B1 B1.next_player).cards_hand := by
            have hch : B1.nextP.collect_cards.cards_hand
                = (pAt B1 B1.next_player).cards_hand
                  ++ (pAt B1 B1.next_player).cards_stack
                  ++ (pAt B1 B1.next_player).cards_revealed := rfl
            rw [hch, hst0, hrev0, List.append_nil, List.append_nil]
          have main : ∀ c : Card,
              c ∈ (B1.players.getD B1.next_player default).collect_cards.cards_hand →
              B1.process_action B1.next_player (LoseCardAction c) rnd = .ok b2 →
              INV { (Board.advance b2).get_legal_moves.2 with
                    legal_moves := (Board.advance b2).get_legal_moves.1 } := by
            intro c hcm hpc
            rw [process_lose_spec, if_pos hcm] at hpc
            have hb2 := Except.ok.inj hpc
            subst hb2
            obtain ⟨hcore, hpp⟩ := step_lose B1 hINV hd.1 hbh2 c
            exact glm_estab _ hcore hpp
          by_cases hcf : (pAt B1 B1.next_player).can_play_flower = true
          · rw [if_pos hcf] at hmem
            rcases List.mem_cons.mp hmem with hae | hmem2
            · subst hae
              refine main Card.FLOWER ?_ hproc
              show Card.FLOWER ∈ B1.nextP.collect_cards.cards_hand
              rw [hch2]
              exact (contains_iff_mem _ _).mp hcf
            · have hae := List.mem_singleton.mp hmem2
              subst hae
              refine main Card.SKULL ?_ hproc
              show Card.SKULL ∈ B1.nextP.collect_cards.cards_hand
              rw [hch2]
              exact (contains_iff_mem _ _).mp hcanS
          · rw [if_neg hcf] at hmem
            have hae := List.mem_singleton.mp hmem
            subst hae
            refine main Card.SKULL ?_ hproc
            show Card.SKULL ∈ B1.nextP.collect_cards.cards_hand
            rw [hch2]
            exact (contains_iff_mem _ _).mp hcanS
        · -- bet delivered: the holder acknowledges with Pass
          rw [hpt.2] at hmem
          have hae := List.mem_singleton.mp hmem
          subst hae
          rw [process_pass_spec] at hproc
          have hb2 := Except.ok.inj hproc
          subst hb2
          obtain ⟨hcore, hpp⟩ := step_pass B1 hINV
          exact glm_estab _ hcore hpp
      · -- commit/bet stage
        have hleg : B1.legal_moves = B1.betStageMoves := hcache.2 hd.1 hd.2 hbh2
        rw [hleg] at hmem
        rcases betStage_mem B1 a hmem with ⟨hbh0, hae, hcanF⟩ | ⟨hbh0, hae, hcanS⟩ |
          ⟨hbhne0, hae⟩ | ⟨k, hae, hk1, hk2, hopen⟩
        · subst hae
          rw [process_flower_spec] at hproc
          have hcanF' : (B1.players.getD B1.next_player default).can_play_flower
              = true := hcanF
          rw [play_flower_ok _ hcanF'] at hproc
          have hproc2 : Except.ok (B1.setP B1.next_player
              { B1.nextP with
                cards_hand := B1.nextP.cards_hand.erase Card.FLOWER
                cards_stack := B1.nextP.cards_stack ++ [Card.FLOWER] })
              = Except.ok b2 := hproc
          have hb2 := Except.ok.inj hproc2
          subst hb2
          obtain ⟨hcore, hpp⟩ := step_commit B1 hINV hbh0
            { B1.nextP with
              cards_hand := B1.nextP.cards_hand.erase Card.FLOWER
              cards_stack := B1.nextP.cards_stack ++ [Card.FLOWER] }
            rfl hd.2 hd.1
            (cardsOK_play B1.nextP Card.FLOWER
              (hINV.1.2.2.2.1 B1.nextP (pAt_mem B1 B1.next_player hINV.1.2.1))
              (Or.inl rfl))
            (by simp) rfl
          exact glm_estab _ hcore hpp
        · subst hae
          rw [process_skull_spec] at hproc
          have hcanS' : (B1.players.getD B1.next_player default).can_play_skull
              = true := hcanS
          rw [play_skull_ok _ hcanS'] at hproc
          have hproc2 : Except.ok (B1.setP B1.next_player
              { B1.nextP with
                cards_hand := B1.nextP.cards_hand.erase Card.SKULL
                cards_stack := B1.nextP.cards_stack ++ [Card.SKULL] })
              = Except.ok b2 := hproc
          have hb2 := Except.ok.inj hproc2
          subst hb2
          obtain ⟨hcore, hpp⟩ := step_commit B1 hINV hbh0
            { B1.nextP with
              cards_hand := B1.nextP.cards_hand.erase Card.SKULL
              cards_stack := B1.nextP.cards_stack ++ [Card.SKULL] }
            rfl hd.2 hd.1
            (cardsOK_play B1.nextP Card.SKULL
              (hINV.1.2.2.2.1 B1.nextP (pAt_mem B1 B1.next_player hINV.1.2.1))
              (Or.inr rfl))
            (by simp) rfl
          exact glm_estab _ hcore hpp
        · subst hae
          rw [process_pass_spec] at hproc
          have hb2 := Except.ok.inj hproc
          subst hb2
          obtain ⟨hcore, hpp⟩ := step_pass B1 hINV
          exact glm_estab _ hcore hpp
        · subst hae
          rw [process_bet_spec] at hproc
          have hb2 := Except.ok.inj hproc
          subst hb2
          obtain ⟨hcore, hpp⟩ := step_bet B1 hINV k hd.1 hd.2 hbh2 hk1 hk2 hopen
          exact glm_estab _ hcore hpp
    · -- a spent seat can only pass
      have hleg : B1.legal_moves = [PassAction] := hcache.1 hd
      rw [hleg] at hmem
      have hae := List.mem_singleton.mp hmem
      subst hae
      rw [process_pass_spec] at hproc
      have hb2 := Except.ok.inj hproc
      subst hb2
      obtain ⟨hcore, hpp⟩ := step_pass B1 hINV
      exact glm_estab _ hcore hpp

/-- The invariant survives every successful `push`. -/
theorem INV_push (b : Board) (a : Action) (rnd : Nat) (b' : Board)
    (hINV : INV b) (h : b.push a rnd = .ok b') : INV b' := by
  unfold Board.push at h
  split at h
  · exact absurd h (by simp)
  · split at h
    · exact absurd h (by simp)
    · split at h
      · exact absurd h (by simp)
      · rename_i hnn
        exact push_core
          { b with
            state_record := b.state_record ++
              [b.get_state (List.map (fun x => x.name) b.players)]
            action_record := b.action_record ++ [strAction a] }
          a rnd hINV b' (not_not.mp hnn) h

/-- The invariant holds for a freshly constructed board. -/
theorem INV_init (names : List String) (hnd : names.Nodup) (b : Board)
    (h : Board.init names = .ok b) : INV b := by
  unfold Board.init at h
  have h2 : (if (names.map Player.init).isEmpty = true then
      (Except.error PyErr.IndexError : Except PyErr Board)
    else
      Except.ok { ((initBoard names).get_legal_moves).2 with
        legal_moves := ((initBoard names).get_legal_moves).1 }) = Except.ok b := h
  by_cases hemp : (names.map Player.init).isEmpty = true
  · rw [if_pos hemp] at h2
    exact absurd h2 (by simp)
  · rw [if_neg hemp] at h2
    have hne0 : names.map Player.init ≠ [] := fun hc => hemp (by rw [hc]; rfl)
    have hpos := List.length_pos.mpr hne0
    have hb := (Except.ok.inj h2).symm
    subst hb
    have hcore : coreINV (initBoard names) := by
      refine ⟨hpos, hpos, ?_, ?_, ?_, ?_⟩
      · show ((names.map Player.init).map (fun x => x.name)).Nodup
        rw [List.map_map]
        have hcomp : names.map ((fun x => x.name) ∘ Player.init) = names.map id :=
          List.map_congr_left (fun nm _ => rfl)
        rw [hcomp, List.map_id]
        exact hnd
      · intro p hp
        have hp2 : p ∈ names.map Player.init := hp
        rw [List.mem_map] at hp2
        obtain ⟨nm, -, rfl⟩ := hp2
        refine ⟨?_, ?_, ?_⟩
        · intro cc hcc
          have hall : ∀ cc ∈ [Card.FLOWER, Card.FLOWER, Card.FLOWER, Card.SKULL],
              cc = Card.FLOWER ∨ cc = Card.SKULL := by decide
          exact hall cc hcc
        · intro cc hcc
          exact absurd hcc (List.not_mem_nil cc)
        · intro cc hcc
          exact absurd hcc (List.not_mem_nil cc)
      · intro p hp _
        have hp2 : p ∈ names.map Player.init := hp
        rw [List.mem_map] at hp2
        obtain ⟨nm, -, rfl⟩ := hp2
        rfl
      · intro p hp hfc
        have hp2 : p ∈ names.map Player.init := hp
        rw [List.mem_map] at hp2
        obtain ⟨nm, -, rfl⟩ := hp2
        exact Bool.noConfusion (show true = false from hfc)
    have hpp : postPhase (initBoard names) := by
      refine postPhase_intro _ ?_ ?_
      · intro _
        refine ⟨rfl, ?_, ?_⟩
        · apply List.sum_eq_zero
          intro x hx
          have hx2 : x ∈ (names.map Player.init).map
              (fun p => p.cards_revealed.length) := hx
          rw [List.mem_map] at hx2
          obtain ⟨p, hp, rfl⟩ := hx2
          rw [List.mem_map] at hp
          obtain ⟨nm, -, rfl⟩ := hp
          rfl
        · intro j hj hpj hhj
          exfalso
          have hmem := getD_mem (names.map Player.init) j default hj
          rw [List.mem_map] at hmem
          obtain ⟨nm, -, hpe⟩ := hmem
          have hhj2 : ((names.map Player.init).getD j default).cards_hand = [] := hhj
          rw [← hpe] at hhj2
          have hform : (Player.init nm).cards_hand
              = Card.FLOWER :: [Card.FLOWER, Card.FLOWER, Card.SKULL] := rfl
          rw [hform] at hhj2
          exact List.cons_ne_nil _ _ hhj2
      · intro h0 hbh0
        exact Option.noConfusion hbh0
    exact glm_estab (initBoard names) hcore hpp

/-- Every reachable board satisfies the invariant. -/
theorem INV_reachable (b : Board) (hb : Reachable b) : INV b := by
  induction hb with
  | init names hnd b h => exact INV_init names hnd b h
  | push b b' a rnd hb h ih => exact INV_push b a rnd b' ih h

/-- C3: on every reachable `Board` (any construction followed by any
sequence of successful pushes, for every injected random draw) the cached
`legal_moves` list is non-empty — in particular a bettor who exhausts their
own stack without reaching the bet or hitting a skull always finds an
opponent with a non-empty stack to reveal. -/
theorem C3_legal_moves_nonempty (b : Board) (hb : Reachable b) :
    b.legal_moves ≠ [] :=
  (INV_reachable b hb).2.2.1

/-- C3 witness: the fresh two-seat board is reachable and its legal moves
are non-empty. -/
theorem C3_witness : initAB.legal_moves ≠ [] :=
  C3_legal_moves_nonempty initAB (Reachable.init ["A", "B"] (by decide) initAB rfl)

/-- C9 counterexample: `play_flower` can leave the hand empty while
`alive` stays `true` (the card merely moved to the seat's own stack). -/
theorem C9_counterexample :
    cexP9.play_flower =
      .ok { name := "A", cards_hand := [], cards_stack := [Card.FLOWER],
            points := 0, alive := true, is_playing := true, cards_revealed := [] }
  ∧ (okD cexP9.play_flower).cards_hand = []
  ∧ (okD cexP9.play_flower).alive = true := by
  exact ⟨by decide, by decide, by decide⟩

/-- C9 (amended): `collect_cards` and the `LoseCardAction` processing do
force `alive = false` the moment they leave the hand empty; but
`play_flower`/`play_skull` (cards moving within the seat) and the random
removal step of the forced discard can leave the hand empty with the seat
still alive. -/
theorem C9_empty_hand_alive_rules :
    (∀ p : Player, (p.collect_cards).cards_hand = [] → (p.collect_cards).alive = false)
  ∧ (∀ (b : Board) (actor : Nat) (card : Card) (rnd : Nat) (b' : Board),
      actor < b.players.length →
      b.process_action actor (LoseCardAction card) rnd = .ok b' →
      (b'.players.getD actor default).cards_hand = [] →
      (b'.players.getD actor default).alive = false)
  ∧ (∃ p p' : Player, p.play_flower = .ok p' ∧ p'.cards_hand = [] ∧ p'.alive = true)
  ∧ (∃ (p : Player) (rnd : Nat) (p' : Player),
      p.remove_card rnd = .ok p' ∧ p'.cards_hand = [] ∧ p'.alive = true) := by
  refine ⟨?_, ?_, ?_, ?_⟩
  · intro p h
    simp only [Player.collect_cards] at h ⊢
    rw [h]
    simp
  · intro b actor card rnd b' hlt hok h
    simp only [Board.process_action] at hok
    split_ifs at hok with hc hz
    · rw [Except.ok.injEq] at hok
      rw [← hok]
      unfold Board.setP
      rw [getD_set_self _ _ _ _ hlt]
    · rw [Except.ok.injEq] at hok
      rw [← hok] at h
      unfold Board.setP at h
      rw [getD_set_self _ _ _ _ hlt] at h
      simp only [] at h
      exact absurd (by rw [h]; rfl :
        ((b.players.getD actor default).collect_cards.cards_hand.erase card).length = 0) hz
  · exact ⟨cexP9,
      { name := "A", cards_hand := [], cards_stack := [Card.FLOWER], points := 0,
        alive := true, is_playing := true, cards_revealed := [] },
      by decide, by decide, by decide⟩
  · exact ⟨{ name := "A", cards_hand := [Card.FLOWER], cards_stack := [],
             points := 0, alive := true, is_playing := true, cards_revealed := [] },
      0,
      { name := "A", cards_hand := [], cards_stack := [], points := 0,
        alive := true, is_playing := true, cards_revealed := [] },
      by decide, by decide, by decide⟩

/-- C4: `pop()` on an empty snapshot log fails with `GameHasNotStarted`, and
`pop()` after `push(a)` does restore every stored field and truncate both
logs — but the restored board is *not* observationally identical: the
legal-move recomputation inside `load_state` re-runs the reveal-stage walk
on the restored seats, so the seat-to-move's legal moves differ from the
pre-push cache (`[RevealOpponentStack("B")]` instead of `[Pass]`). -/
theorem C4_pop_not_inverse_of_push :
    initAB.pop = .error .GameHasNotStarted
  ∧ c4b4.legal_moves = [PassAction]
  ∧ c4b4.push PassAction 0 = .ok c4b5
  ∧ c4b5.pop = .ok c4b6
  ∧ c4b6.players = c4b4.players
  ∧ c4b6.bet_holder = c4b4.bet_holder
  ∧ c4b6.highest_bet = c4b4.highest_bet
  ∧ c4b6.next_player = c4b4.next_player
  ∧ c4b6.action_record = c4b4.action_record
  ∧ c4b6.state_record = c4b4.state_record
  ∧ c4b6.legal_moves = [RevealCardAction "B"]
  ∧ c4b6.legal_moves ≠ c4b4.legal_moves := by
  exact ⟨rfl, rfl, rfl, rfl, rfl, rfl, rfl, rfl, rfl, rfl, rfl, by decide⟩

/-- C1 counterexample: a reachable board on which a non-legal action is
refused with `GameIsOver`, not `MoveIsNotLegal` — once a winner exists, the
winner check fires before the legality check. -/
theorem C1_counterexample_won_board :
    Reachable c1b10
  ∧ BetAction 1 ∉ c1b10.legal_moves
  ∧ c1b10.push (BetAction 1) 0 = .error .GameIsOver
  ∧ c1b10.push (BetAction 1) 0 ≠ .error .MoveIsNotLegal := by
  refine ⟨?_, by decide, rfl, by decide⟩
  have h0 : Reachable initAB := Reachable.init ["A", "B"] (by decide) initAB rfl
  have h1 : Reachable pushedF :=
    Reachable.push initAB pushedF (PlayCardAction Card.FLOWER) 0 h0 rfl
  have h2 : Reachable c4b2 :=
    Reachable.push pushedF c4b2 (PlayCardAction Card.FLOWER) 0 h1 rfl
  have h3 : Reachable c1b3 := Reachable.push c4b2 c1b3 (BetAction 2) 0 h2 rfl
  have h4 : Reachable c1b4 := Reachable.push c1b3 c1b4 PassAction 0 h3 rfl
  have h5 : Reachable c1b5 :=
    Reachable.push c1b4 c1b5 (RevealCardAction "B") 0 h4 rfl
  have h6 : Reachable c1b6 :=
    Reachable.push c1b5 c1b6 (PlayCardAction Card.FLOWER) 0 h5 rfl
  have h7 : Reachable c1b7 :=
    Reachable.push c1b6 c1b7 (PlayCardAction Card.FLOWER) 0 h6 rfl
  have h8 : Reachable c1b8 := Reachable.push c1b7 c1b8 (BetAction 2) 0 h7 rfl
  have h9 : Reachable c1b9 := Reachable.push c1b8 c1b9 PassAction 0 h8 rfl
  exact Reachable.push c1b9 c1b10 (RevealCardAction "B") 0 h9 rfl

/-- C1 (amended): while no winner is determined, `push` of any action outside
the cached legal moves fails with `MoveIsNotLegal` (both checks precede every
mutation, so the failing call leaves no trace on the board); once a winner
exists, `push` fails with `GameIsOver` instead, for legal and illegal
actions alike. -/
theorem C1_illegal_push_rejected :
    (∀ (b : Board) (a : Action) (rnd : Nat), b.winner = .ok none →
      a ∉ b.legal_moves → b.push a rnd = .error .MoveIsNotLegal)
  ∧ (∀ (b : Board) (a : Action) (rnd : Nat) (w : Player),
      b.winner = .ok (some w) → b.push a rnd = .error .GameIsOver) := by
  constructor
  · intro b a rnd hw ha
    simp only [Board.push, hw]
    rw [if_neg (by simp), if_pos ha]
  · intro b a rnd w hw
    simp only [Board.push, hw]
    rw [if_pos (by simp)]

/-- C1 witness: a fresh board refuses an illegal bet with `MoveIsNotLegal`;
the finished `c1b10` board refuses everything with `GameIsOver`. -/
theorem C1_witness :
    (initAB.winner = .ok none ∧ BetAction 5 ∉ initAB.legal_moves
      ∧ initAB.push (BetAction 5) 0 = .error .MoveIsNotLegal)
  ∧ c1b10.push PassAction 0 = .error .GameIsOver :=
  ⟨⟨by decide, by decide,
    C1_illegal_push_rejected.1 initAB (BetAction 5) 0 (by decide) (by decide)⟩,
   C1_illegal_push_rejected.2 c1b10 PassAction 0
     { name := "A", cards_hand := ["F", "S", "F", "F"], cards_stack := [],
       points := 2, alive := true, is_playing := true, cards_revealed := [] }
     (by decide)⟩

/-- C9 witness: the amended rules evaluated concretely — a seat collecting an
empty spread dies, and a seat that loses its last card dies. -/
theorem C9_witness :
    ((Player.collect_cards
      { name := "A", cards_hand := [], cards_stack := [], points := 0,
        alive := true, is_playing := true, cards_revealed := [] }).alive = false)
  ∧ (((okD ((Board.mk [cexP9] none 0 0 [] [] []).process_action 0
        (LoseCardAction Card.FLOWER) 0)).players.getD 0 default).alive = false) := by
  constructor
  · exact C9_empty_hand_alive_rules.1 _ (by decide)
  · exact C9_empty_hand_alive_rules.2.1 (Board.mk [cexP9] none 0 0 [] [] []) 0
      Card.FLOWER 0 _ (by decide) rfl (by decide)

end Skull
